import Mathlib

/-!
Verification development for the custom-gradient / reversible-block subsystem of
`tefla/core/special_fn.py`.

Embedding conventions.

* A TensorFlow graph tensor is modelled by `Expr`: a node of the static dataflow
  graph over integer-valued leaves (`Expr.leaf i` reads slot `i` of an
  environment).  All claims about numeric behaviour are stated about
  `eval env e`, i.e. exact arithmetic, matching the spec's "under exact
  arithmetic" reading.
* `tf.gradients(y, x, seed)` is modelled by the symbolic vector-Jacobian
  product `gradT`: it walks the graph of `y`, returns the seed at every
  occurrence of the node `x` (node identity is structural equality of the
  graph term), adds contributions of multiple paths, is blocked by
  `stop_gradient`, and returns `none` when `y` is not connected to `x` —
  TF1's `None` for unconnected targets.
* Python runtime failures that the source can raise on these code paths
  (`assert`, `None + tensor`, a failed `LAYER_RE` match followed by
  `.group`, `int('')`, list index errors) are modelled by an `Except Err`
  result; each `Err` constructor names the Python exception class it stands
  for.
* In-place mutation (`f.reverse()` on the caller's list) is modelled by
  returning the post-call state of the mutated lists.
-/

set_option autoImplicit false

namespace Tefla

/-- A node of the dataflow graph.  `leaf i` is an externally supplied tensor
(placeholder, variable ref or side input) reading environment slot `i`;
`ident` is `tf.identity`; `stopGrad` is `tf.stop_gradient`. -/
inductive Expr where
  | leaf : Nat → Expr
  | const : Int → Expr
  | add : Expr → Expr → Expr
  | sub : Expr → Expr → Expr
  | neg : Expr → Expr
  | ident : Expr → Expr
  | stopGrad : Expr → Expr
  deriving DecidableEq, Repr

/-- Value semantics of a graph node: exact integer arithmetic.
`stop_gradient` and `tf.identity` are value-transparent. -/
def eval (env : Nat → Int) : Expr → Int
  | .leaf i => env i
  | .const c => c
  | .add a b => eval env a + eval env b
  | .sub a b => eval env a - eval env b
  | .neg a => - eval env a
  | .ident a => eval env a
  | .stopGrad a => eval env a

/-- Merge two optional gradient contributions the way the differentiation
engine aggregates path contributions: absent (`none`, TF's `None`) counts as
no contribution, two present contributions are added. -/
def combineOpt : Option Expr → Option Expr → Option Expr
  | none, b => b
  | some a, none => some a
  | some a, some b => some (.add a b)

/-- Symbolic vector-Jacobian product: the gradient of `e` with respect to the
graph node `t`, seeded with `seed`.  Models the engine's
`differentiate`/`tf.gradients` for a single output: every occurrence of the
node `t` inside `e` contributes the seed transported through the path;
`stop_gradient` blocks the walk; an unconnected target yields `none`. -/
def gradT (t seed : Expr) (e : Expr) : Option Expr :=
  if e = t then some seed
  else
    match e with
    | .leaf _ => none
    | .const _ => none
    | .add a b => combineOpt (gradT t seed a) (gradT t seed b)
    | .sub a b => combineOpt (gradT t seed a) ((gradT t seed b).map .neg)
    | .neg a => (gradT t seed a).map .neg
    | .ident a => gradT t seed a
    | .stopGrad _ => none

/-- Model of `tf.gradients(ys, xs, grad_ys)`: for each target in `xs`, the
summed contributions of every output of `ys` seeded with the matching entry of
`gradYs`; `none` when no output is connected to the target. -/
def tfGradients (ys : List Expr) (xs : List Expr) (gradYs : List Expr) : List (Option Expr) :=
  xs.map (fun x => ((ys.zip gradYs).map (fun p => gradT x p.2 p.1)).foldl combineOpt none)

/-- Python runtime failures reachable on the embedded code paths, named after
the exception class the source would raise. -/
inductive Err where
  | typeError
  | attributeError
  | valueError
  | assertionError
  | indexError
  deriving DecidableEq, Repr

/-- Using a `tf.gradients` result in tensor arithmetic: a `None` entry raises
a Python `TypeError` (`None + tensor`), a tensor is used as is. -/
def optToExcept : Option Expr → Except Err Expr
  | some e => .ok e
  | none => .error .typeError

/-- All entries present, or `none`. -/
def allSome {α : Type} : List (Option α) → Option (List α)
  | [] => some []
  | none :: _ => none
  | some x :: xs => (allSome xs).map (x :: ·)

/-- Model of `tf.tuple(tensors)`: a synchronization barrier that returns the
same tensors; passing a `None` entry raises (`tf.identity(None)`). -/
def tfTuple (xs : List (Option Expr)) : Except Err (List Expr) :=
  match allSome xs with
  | some l => .ok l
  | none => .error .typeError

/-- Python list indexing `l[i]` for a natural index: `IndexError` out of
range. -/
def listGet {α : Type} (l : List α) (i : Nat) : Except Err α :=
  match l.get? i with
  | some x => .ok x
  | none => .error .indexError

/-- Length of the shortest member, the length of Python's `zip(*lists)`
(`zip()` of no lists is empty). -/
def minLen {α : Type} : List (List α) → Nat
  | [] => 0
  | [l] => l.length
  | l :: ls => Nat.min l.length (minLen ls)

/-- Python's `zip(*lists)`: the list of columns, truncated to the shortest
row; `zip()` of no lists is empty. -/
def pyZip {α : Type} (ls : List (List α)) : List (List α) :=
  (List.range (minLen ls)).map (fun k => ls.filterMap (fun l => l.get? k))

/-- Model of `tf.add_n`: the source only calls it on non-empty lists (guarded
by `if grads:`); the empty case is unreachable and mapped to `0`. -/
def tfAddN : List Expr → Expr
  | [] => .const 0
  | x :: xs => xs.foldl .add x

/-- `_acc_grads(*lists_of_grads)` (special_fn.py lines 560-569): accumulate
pointwise over the columns of `zip(*lists_of_grads)`, skipping `None`
contributions, `tf.add_n` on what remains, `None` when every contribution is
missing. -/
def accGrads (listsOfGrads : List (List (Option Expr))) : List (Option Expr) :=
  (pyZip listsOfGrads).map (fun grads =>
    let gs := grads.filterMap id
    if gs.isEmpty then none else some (tfAddN gs))

/-- The type of the `f`/`g` coupling sub-functions: a graph-building function
from the main input tensor and the list of side-input tensors to an output
tensor.  The source calls `f(x2, f_side_input)` when side inputs are present
and `f(x2)` otherwise; the embedding always passes the (possibly empty) list,
which only differs in Python call arity, not in the graph built. -/
abbrev SubFn := Expr → List Expr → Expr

/-- `_rev_layer_forward` (special_fn.py lines 572-583):
`y1 = x1 + f(x2, f_side)`, `y2 = x2 + g(y1, g_side)`.  The `gate_outputs`
branch wraps the pair in `tf.tuple`, which returns the same tensors and is
value-transparent, so it is not represented. -/
def revLayerForward (xs : Expr × Expr) (f g : SubFn) (fSideInput gSideInput : List Expr) :
    Expr × Expr :=
  let y1 := Expr.add xs.1 (f xs.2 fSideInput)
  let y2 := Expr.add xs.2 (g y1 gSideInput)
  (y1, y2)

/-- The bundle returned by `_rev_layer_backward`: reconstructed inputs
`(x1, x2)`, input gradients `(grad_x1, grad_x2)`, and the per-layer gradient
lists for `f`'s variables, `g`'s variables, `f`'s side inputs and `g`'s side
inputs (all tensors: they went through `tf.tuple`). -/
structure LayerBack where
  ys : Expr × Expr
  gradYs : Expr × Expr
  gradFVars : List Expr
  gradGVars : List Expr
  gradFSide : List Expr
  gradGSide : List Expr
  deriving Repr

/-- `_rev_layer_backward` (special_fn.py lines 586-642), line by line:
reconstruct `x2 = y2 - g(stop(y1), stop(g_side))` and
`x1 = y1 - f(stop(x2), stop(f_side))`; `grad_x1 = grad_y1 + d g/d y1 · grad_y2`
(a `TypeError` if `g` is not connected to `y1`, since `tf.gradients` returns
`None` there); `grad_x2` accumulates the two paths through `f` plus the direct
`grad_y2`; variable and side-input gradients seeded with `grad_y2` (for `g`)
and with `grad_y1` and the indirect term (for `f`, summed by `_acc_grads`);
everything is bundled through one `tf.tuple` barrier and sliced back. -/
def revLayerBackward (ys gradYs : Expr × Expr) (f g : SubFn)
    (fVars fSideInput gVars gSideInput : List Expr) : Except Err LayerBack :=
  let y1 := ys.1
  let y2 := ys.2
  let gradY1 := gradYs.1
  let gradY2 := gradYs.2
  let y1stop := Expr.stopGrad y1
  let gSideS := gSideInput.map Expr.stopGrad
  let gy1 := g y1stop gSideS
  let x2 := Expr.sub y2 gy1
  let x2stop := Expr.stopGrad x2
  let fSideS := fSideInput.map Expr.stopGrad
  let fx2 := f x2stop fSideS
  let x1 := Expr.sub y1 fx2
  match (tfGradients [gy1] [y1stop] [gradY2]).headD none with
  | none => .error .typeError
  | some gradGy1Y2 =>
    let gradX1 := Expr.add gradY1 gradGy1Y2
    match (tfGradients [fx2] [x2stop] [gradY1]).headD none,
          (tfGradients [fx2] [x2stop] [gradGy1Y2]).headD none with
    | some d1, some d2 =>
      let gradX2 := Expr.add (Expr.add d1 gradY2) d2
      let grads1 := tfGradients [gy1] (gVars ++ gSideS) [gradY2]
      let gradGVarsO := grads1.take gVars.length
      let gradGSideO := grads1.drop gVars.length
      let grads2 := tfGradients [fx2] (fVars ++ fSideS) [gradY1]
      let gradFY1 := grads2.take fVars.length
      let gradFSide1 := grads2.drop fVars.length
      let grads3 := tfGradients [fx2] (fVars ++ fSideS) [gradGy1Y2]
      let gradFY2 := grads3.take fVars.length
      let gradFSide2 := grads3.drop fVars.length
      let gradFVarsO := accGrads [gradFY1, gradFY2]
      let gradFSideO := accGrads [gradFSide1, gradFSide2]
      match tfTuple ([some x1, some x2, some gradX1, some gradX2] ++
          gradFVarsO ++ gradGVarsO ++ gradFSideO ++ gradGSideO) with
      | .ok (x1o :: x2o :: gx1o :: gx2o :: rest) =>
        .ok { ys := (x1o, x2o)
              gradYs := (gx1o, gx2o)
              gradFVars := rest.take gradFVarsO.length
              gradGVars := (rest.drop gradFVarsO.length).take gradGVarsO.length
              gradFSide := ((rest.drop gradFVarsO.length).drop gradGVarsO.length).take gradFSideO.length
              gradGSide := ((rest.drop gradFVarsO.length).drop gradGVarsO.length).drop gradFSideO.length }
      | _ => .error .typeError
    | _, _ => .error .typeError

/-- The loop body of `_rev_block_forward` (special_fn.py lines 645-671):
`num_layers` iterations threading `(x1, x2)` through `_rev_layer_forward`
with `f[i]`, `g[i]` (index errors surface as Python `IndexError`).  The
per-layer `variable_scope` names only affect variable naming. -/
def revBlockForwardAux (fs gs : List SubFn) (fSideInput gSideInput : List Expr) :
    Nat → Nat → Expr × Expr → Except Err (Expr × Expr)
  | 0, _, out => .ok out
  | fuel + 1, i, out => do
    let fi ← listGet fs i
    let gi ← listGet gs i
    revBlockForwardAux fs gs fSideInput gSideInput fuel (i + 1)
      (revLayerForward out fi gi fSideInput gSideInput)

/-- `_rev_block_forward`: iterate the reversible layer `num_layers` times. -/
def revBlockForward (x1 x2 : Expr) (fs gs : List SubFn) (numLayers : Nat)
    (fSideInput gSideInput : List Expr) : Except Err (Expr × Expr) :=
  revBlockForwardAux fs gs fSideInput gSideInput numLayers 0 (x1, x2)

/-- `_fn_with_custom_grad` (special_fn.py lines 38-100).  The forward function
is run (building `outputs` and collecting the variables created in its scope);
with `grad_fn is None` the raw outputs are returned unchanged; otherwise every
output is passed through the identity `Defun` (`tf.identity` on each output)
whose registered gradient is the supplied rule.  The source performs no
validation of the outputs: there is no zero-output check and no static-shape
check (`shape_func` just forwards `t.get_shape()`), hence no `.error` is ever
produced here; the `Except` result type only records that the source has no
raising path of its own.  `gradFn` is any payload — it is registered, never
invoked, at construction time.  `trainVars` stands for the variables collected
from the scope; they are threaded into the `Defun` inputs and do not alter the
returned outputs. -/
def fnWithCustomGrad {γ : Type} (fn : List Expr → List Expr) (inputs : List Expr)
    (trainVars : List Expr) (gradFn : Option γ) : Except Err (List Expr) :=
  let outputs := fn inputs
  match gradFn with
  | none => .ok outputs
  | some _ =>
    let _ := trainVars
    .ok (outputs.map Expr.ident)

/-- The gradient rule `_recompute_grad` installs (special_fn.py lines
866-876): discard the stored forward outputs, re-execute `fn` on the inputs,
differentiate the fresh outputs with respect to `inputs + variables` seeded by
the incoming output gradients, and split the result. -/
def recomputeGradFn (fn : List Expr → List Expr) (inputs vars : List Expr)
    (outputs outputGrads : List Expr) : List (Option Expr) × List (Option Expr) :=
  let _ := outputs
  let freshOutputs := fn inputs
  let grads := tfGradients freshOutputs (inputs ++ vars) outputGrads
  (grads.take inputs.length, grads.drop inputs.length)

/-- Modelled from the spec: "gradients produced by standard structural
differentiation of one direct call to `fn`" — call `fn` once on the inputs and
differentiate its outputs with respect to `inputs + parameters`, seeded by the
incoming output gradients. -/
def directCallGrads (fn : List Expr → List Expr) (inputs vars : List Expr)
    (outputGrads : List Expr) : List (Option Expr) × List (Option Expr) :=
  let outputs := fn inputs
  let grads := tfGradients outputs (inputs ++ vars) outputGrads
  (grads.take inputs.length, grads.drop inputs.length)

/-- A trainable variable as seen by `rev_block.custom_grad_fn`: its graph node
(`variable_ref` already stripped, i.e. the variable ref tensor itself) and its
scope name string, the only channel used for layer attribution. -/
structure TfVar where
  name : String
  ref : Expr
  deriving DecidableEq, Repr

/-- One attempt of `LAYER_RE` at a fixed start position: the literal
`revlayer_`, then a maximal digit run (`[0-9]*` is greedy and a shorter run
would leave a digit where `/` is required), then `/`, then `f` or `g`, then
`/`, then anything. -/
def layerREAt (cs : List Char) : Option (List Char × Char) :=
  if cs.take 9 = [ 'r', 'e', 'v', 'l', 'a', 'y', 'e', 'r', '_' ] then
    let rest := cs.drop 9
    let digits := rest.takeWhile Char.isDigit
    match rest.drop digits.length with
    | '/' :: r :: '/' :: _ =>
      if r = 'f' ∨ r = 'g' then some (digits, r) else none
    | _ => none
  else none

/-- `LAYER_RE.match(name)` for `LAYER_RE = re.compile(".*revlayer_([0-9]*)/([fg])/.*")`
(special_fn.py line 674): the leading greedy `.*` selects the rightmost
position at which the rest of the pattern matches; the captured groups are the
digit run and the role letter. -/
def matchLayerRE : List Char → Option (List Char × Char)
  | [] => none
  | c :: rest =>
    match matchLayerRE rest with
    | some r => some r
    | none => layerREAt (c :: rest)

/-- Digit-run to `int(...)` value. -/
def digitsToNat (ds : List Char) : Nat :=
  ds.foldl (fun n c => n * 10 + (c.toNat - 48)) 0

/-- The layer attribution step of `custom_grad_fn` (special_fn.py lines
764-767) for one variable: `LAYER_RE.match(ref.name)` — a failed match leaves
`regex = None` and `regex.group(1)` raises `AttributeError`;
`int(regex.group(1))` with an empty digit run raises `ValueError`.  Returns
the layer number and the role (`true` for `f`, `false` for `g`). -/
def parseVar (v : TfVar) : Except Err (Nat × Bool) :=
  match matchLayerRE v.name.toList with
  | none => .error .attributeError
  | some (digits, role) =>
    if digits.isEmpty then .error .valueError
    else .ok (digitsToNat digits, role = 'f')

/-- The list-or-scalar normalization of `f`/`g` at the top of `rev_block`
(special_fn.py lines 729-736): a list must have length `num_layers`
(`assert len(f) == num_layers`, an `AssertionError` otherwise); a single
function is replicated `num_layers` times. -/
def normalizeFG (f : SubFn ⊕ List SubFn) (numLayers : Nat) : Except Err (List SubFn) :=
  match f with
  | .inl fn => .ok (List.replicate numLayers fn)
  | .inr l => if l.length = numLayers then .ok l else .error .assertionError

/-- The argument normalization prefix of `rev_block`: both `f` and `g` go
through the list-length check / replication. -/
def revBlockSetup (f g : SubFn ⊕ List SubFn) (numLayers : Nat) :
    Except Err (List SubFn × List SubFn) := do
  let fs ← normalizeFG f numLayers
  let gs ← normalizeFG g numLayers
  .ok (fs, gs)

/-- The per-layer, per-role containers filled by the variable-attribution loop
of `custom_grad_fn` (special_fn.py lines 756-774): `f_vars`, `g_vars` hold the
variable refs, `f_vars_idxs`, `g_vars_idxs` their positions in the flat
`variables` list. -/
structure Buckets where
  fVars : List (List Expr)
  gVars : List (List Expr)
  fIdxs : List (List Nat)
  gIdxs : List (List Nat)
  deriving Repr

/-- `[[] for _ in range(num_layers)]`, four times. -/
def Buckets.empty (numLayers : Nat) : Buckets :=
  ⟨List.replicate numLayers [], List.replicate numLayers [],
   List.replicate numLayers [], List.replicate numLayers []⟩

/-- `f_vars[layer_no].append(ref); f_vars_idxs[layer_no].append(i)` (or the
`g` pair when `role` is false). -/
def Buckets.add (b : Buckets) (layerNo : Nat) (role : Bool) (ref : Expr) (i : Nat) : Buckets :=
  if role then
    { b with fVars := b.fVars.set layerNo ((b.fVars.getD layerNo []) ++ [ref]),
             fIdxs := b.fIdxs.set layerNo ((b.fIdxs.getD layerNo []) ++ [i]) }
  else
    { b with gVars := b.gVars.set layerNo ((b.gVars.getD layerNo []) ++ [ref]),
             gIdxs := b.gIdxs.set layerNo ((b.gIdxs.getD layerNo []) ++ [i]) }

/-- Bucket accessor: the f-buckets for `role = true`, the g-buckets
otherwise. -/
def bIdxs (b : Buckets) (role : Bool) (l : Nat) : List Nat :=
  (if role then b.fIdxs else b.gIdxs).getD l []

/-- Bucket accessor for the collected variable refs. -/
def bVars (b : Buckets) (role : Bool) (l : Nat) : List Expr :=
  (if role then b.fVars else b.gVars).getD l []

/-- The variable-attribution loop of `custom_grad_fn` (special_fn.py lines
761-774): for each variable in flat order, parse its name with `LAYER_RE` and
append it (and its flat index) to the bucket of its `(layer, role)`;
`f_vars[layer_no]` with `layer_no >= num_layers` raises `IndexError`. -/
def buildVarBuckets (numLayers : Nat) : Nat → Buckets → List TfVar → Except Err Buckets
  | _, st, [] => .ok st
  | i, st, v :: vs => do
    let (layerNo, role) ← parseVar v
    if layerNo < numLayers then
      buildVarBuckets numLayers (i + 1) (st.add layerNo role v.ref i) vs
    else .error .indexError

/-- The side-input indexing loop of `custom_grad_fn` (special_fn.py lines
748-754): for each flat side input, record its flat position at the position
`f_side_input.index(t)` (first match) of `f_side_idxs`, or of `g_side_idxs`;
a side input belonging to neither list hits `assert False`.  Membership and
`.index` use tensor identity (`==` on TF1 tensors), modelled by structural
equality of graph nodes. -/
def buildSideIdxsAux (fSideInput gSideInput : List Expr) :
    Nat → List Expr → List (Option Nat) × List (Option Nat) →
    Except Err (List (Option Nat) × List (Option Nat))
  | _, [], st => .ok st
  | i, t :: ts, (fI, gI) =>
    if t ∈ fSideInput then
      buildSideIdxsAux fSideInput gSideInput (i + 1) ts
        (fI.set (fSideInput.indexOf t) (some i), gI)
    else if t ∈ gSideInput then
      buildSideIdxsAux fSideInput gSideInput (i + 1) ts
        (fI, gI.set (gSideInput.indexOf t) (some i))
    else .error .assertionError

/-- The state threaded through the backward loop of `custom_grad_fn`
(special_fn.py lines 788-800): the current `(ys, grad_ys)` pair and the
per-layer gradient lists appended in loop (= reversed layer) order. -/
structure LoopSt where
  ys : Expr × Expr
  gradYs : Expr × Expr
  fVarGrads : List (List Expr)
  gVarGrads : List (List Expr)
  fSideGrads : List (List Expr)
  gSideGrads : List (List Expr)
  deriving Repr

/-- Loop state before the first backward layer. -/
def LoopSt.init (ys gradYs : Expr × Expr) : LoopSt :=
  ⟨ys, gradYs, [], [], [], []⟩

/-- The backward loop of `custom_grad_fn`: for `i in range(num_layers)`,
run `_rev_layer_backward` with the (already reversed) `f[i]`, `g[i]`,
`f_vars[i]`, `g_vars[i]` and the shared side-input lists, thread
`(ys, grad_ys)`, and append the four per-layer gradient lists. -/
def backwardLoop (fR gR : List SubFn) (fVarsR gVarsR : List (List Expr))
    (fSideInput gSideInput : List Expr) :
    Nat → Nat → LoopSt → Except Err LoopSt
  | 0, _, st => .ok st
  | fuel + 1, i, st => do
    let fi ← listGet fR i
    let gi ← listGet gR i
    let fv ← listGet fVarsR i
    let gv ← listGet gVarsR i
    let lb ← revLayerBackward st.ys st.gradYs fi gi fv fSideInput gv gSideInput
    backwardLoop fR gR fVarsR gVarsR fSideInput gSideInput fuel (i + 1)
      ⟨lb.ys, lb.gradYs,
       st.fVarGrads ++ [lb.gradFVars], st.gVarGrads ++ [lb.gradGVars],
       st.fSideGrads ++ [lb.gradFSide], st.gSideGrads ++ [lb.gradGSide]⟩

/-- The variable-gradient scatter of `custom_grad_fn` (special_fn.py lines
808-817): starting from `[None] * len(variables)`, write each bucket's
gradients at that bucket's recorded flat positions
(`variable_grads[i] = grad` over `zip(idxs, grads)`). -/
def writeOne (init : List (Option Expr)) (idxs : List Nat) (grads : List Expr) :
    List (Option Expr) :=
  (idxs.zip grads).foldl (fun a p => a.set p.1 (some p.2)) init

def scatterWrites (init : List (Option Expr)) (writes : List (List Nat × List Expr)) :
    List (Option Expr) :=
  writes.foldl (fun acc w => writeOne acc w.1 w.2) init

/-- The side-input-gradient scatter (special_fn.py lines 819-822):
`side_input_grads[i] = grad` over `zip(side_idxs, acc_side_grads)`; an
unfilled (`None`) index raises `TypeError` (`list[None]`). -/
def scatterSide (init : List (Option Expr)) (idxs : List (Option Nat))
    (grads : List (Option Expr)) : Except Err (List (Option Expr)) :=
  (idxs.zip grads).foldlM
    (fun a p =>
      match p.1 with
      | none => .error .typeError
      | some i => .ok (a.set i p.2)) init

/-- The closure context of `rev_block.custom_grad_fn`: the normalized
per-layer `f`/`g` lists and the side-input lists `rev_block` closed over. -/
structure BlockCtx where
  numLayers : Nat
  fs : List SubFn
  gs : List SubFn
  fSideInput : List Expr
  gSideInput : List Expr

/-- What `custom_grad_fn` hands back: `grad_inputs = [grad_x1, grad_x2] +
side_input_grads` and `grad_vars = variable_grads`, plus the post-call state
of the closure lists `f` and `g`, which the source reverses in place
(`f.reverse()`, `g.reverse()`) and never restores. -/
structure GradResult where
  gradInputs : List (Option Expr)
  gradVars : List (Option Expr)
  fPost : List SubFn
  gPost : List SubFn

/-- `rev_block.custom_grad_fn` (special_fn.py lines 741-825), stage by stage:
split off `side_inputs = inputs[2:]`; assert the side-input count; build the
side-input index maps; attribute every variable to a `(layer, role)` bucket by
name; reverse the per-layer containers (`layer_scopes`, `f_vars`, `g_vars`,
`f`, `g` — the last two in place, mutating the caller's lists); run the
backward loop from the last layer to the first; accumulate the per-layer side
gradients with `_acc_grads`; scatter side and variable gradients back into
flat order; return `[grad_x1, grad_x2] + side_input_grads` and
`variable_grads`. -/
def customGradFn (ctx : BlockCtx) (inputs : List Expr) (vars : List TfVar)
    (ys gradYs : Expr × Expr) : Except Err GradResult := do
  let sideInputs := inputs.drop 2
  if sideInputs.length = ctx.fSideInput.length + ctx.gSideInput.length then
    let idxs ← buildSideIdxsAux ctx.fSideInput ctx.gSideInput 0 sideInputs
      (List.replicate ctx.fSideInput.length none, List.replicate ctx.gSideInput.length none)
    let bk ← buildVarBuckets ctx.numLayers 0 (Buckets.empty ctx.numLayers) vars
    let fR := ctx.fs.reverse
    let gR := ctx.gs.reverse
    let fVarsR := bk.fVars.reverse
    let gVarsR := bk.gVars.reverse
    let st ← backwardLoop fR gR fVarsR gVarsR ctx.fSideInput ctx.gSideInput
      ctx.numLayers 0 (LoopSt.init ys gradYs)
    let accFSide := accGrads (st.fSideGrads.map (List.map some))
    let accGSide := accGrads (st.gSideGrads.map (List.map some))
    let sideGrads1 ← scatterSide (List.replicate sideInputs.length none) idxs.1 accFSide
    let sideGrads ← scatterSide sideGrads1 idxs.2 accGSide
    let varGrads := scatterWrites (List.replicate vars.length none)
      ((bk.fIdxs.zip st.fVarGrads.reverse) ++ (bk.gIdxs.zip st.gVarGrads.reverse))
    .ok ⟨[some st.gradYs.1, some st.gradYs.2] ++ sideGrads, varGrads, fR, gR⟩
  else .error .assertionError

/-- An identity-coupling sub-function that is value-zero yet graph-connected
to its input (`f(x) = x - x`); a sub-function whose graph is not connected to
its input would make `tf.gradients` return `None` and the backward pass raise
`TypeError` (`grad_x1 = grad_y1 + None`). -/
def zeroF : SubFn := fun x _ => .sub x x

/-- The identity sub-function `f(x) = x`. -/
def idF : SubFn := fun x _ => x

/-- The side-input-passing sub-function of the spec's multi-layer scenario:
`g(y1, s) = s`, realised as `(y1 - y1) + s` so that its graph stays connected
to `y1` (a `g` literally ignoring `y1` would make the backward pass raise, as
for `zeroF`). -/
def gPassSide : SubFn := fun y side => .add (.sub y y) (side.headD (.const 0))

/-- A sub-function with one variable (`leaf n`) and one side input, touching
each exactly once: `f(x, s) = (x + w) + s`. -/
def linF (n : Nat) : SubFn := fun x side => .add (.add x (.leaf n)) (side.headD (.const 0))

/-- Value of an optional gradient, a missing (`None`) gradient counting as
zero signal. -/
def evalO (env : Nat → Int) : Option Expr → Int
  | none => 0
  | some e => eval env e

/-- Sum of the per-layer contributions in one accumulation column, a missing
contribution counting as zero. -/
def sumContrib (env : Nat → Int) (col : List (Option Expr)) : Int :=
  col.foldl (fun s og => s + evalO env og) 0

/-- The fixed context of the spec's multi-layer side-input scenario: 3 layers,
`f = id`, `g(y1, s) = s`, one shared g-side input (`leaf 2`). -/
def c4ctx : BlockCtx := ⟨3, [idF, idF, idF], [gPassSide, gPassSide, gPassSide], [], [.leaf 2]⟩

/-- The first `k` iterations of the backward loop of the multi-layer
scenario, exactly as `customGradFn c4ctx` runs them; the `grad_y2` component
of its state after `k` iterations is the seed entering backward layer `k`. -/
def c4Loop (k : Nat) : Except Err LoopSt :=
  backwardLoop c4ctx.fs.reverse c4ctx.gs.reverse
    (List.replicate 3 []) (List.replicate 3 []) c4ctx.fSideInput c4ctx.gSideInput
    k 0 (LoopSt.init (.leaf 10, .leaf 11) (.leaf 12, .leaf 13))

/-- The `grad_y2` seed entering backward iteration `k` of the multi-layer
scenario (`k = 0` is the block's incoming `gy2`). -/
def c4Seed (k : Nat) : Expr :=
  match c4Loop k with
  | .ok st => st.gradYs.2
  | .error _ => .const 0

/-- The backward-loop state transformation that one layer of the multi-layer
scenario performs (established against `_rev_layer_backward` by
`c4_layer_step`): reconstruct the previous `(y1, y2)`, update the gradient
pair, and append this layer's side-input gradient — exactly the incoming
`grad_y2` seed. -/
def c4Next (st : LoopSt) : LoopSt :=
  ⟨(.sub st.ys.1 (.stopGrad (.sub st.ys.2
      (.add (.sub (.stopGrad st.ys.1) (.stopGrad st.ys.1)) (.stopGrad (.leaf 2))))),
    .sub st.ys.2 (.add (.sub (.stopGrad st.ys.1) (.stopGrad st.ys.1))
      (.stopGrad (.leaf 2)))),
   (.add st.gradYs.1 (.add st.gradYs.2 (.neg st.gradYs.2)),
    .add (.add st.gradYs.1 st.gradYs.2) (.add st.gradYs.2 (.neg st.gradYs.2))),
   st.fVarGrads ++ [[]], st.gVarGrads ++ [[]],
   st.fSideGrads ++ [[]], st.gSideGrads ++ [[st.gradYs.2]]⟩

/-- The loop state of the multi-layer scenario after `k` backward layers. -/
def c4St : Nat → LoopSt
  | 0 => LoopSt.init (.leaf 10, .leaf 11) (.leaf 12, .leaf 13)
  | k + 1 => c4Next (c4St k)

/-- The positions (in increasing flat order) of the variables whose scope
name attributes them to layer `l` with role `role` (`true` for `f`), starting
the position count at `i`: the reference meaning of the idx buckets that
`custom_grad_fn`'s attribution loop fills. -/
def bucketSpecIdxs (role : Bool) (l : Nat) : Nat → List TfVar → List Nat
  | _, [] => []
  | i, v :: vs =>
    match parseVar v with
    | .ok lr => if lr = (l, role) then i :: bucketSpecIdxs role l (i + 1) vs
                else bucketSpecIdxs role l (i + 1) vs
    | .error _ => bucketSpecIdxs role l (i + 1) vs

/-! Helper lemmas. -/

theorem exceptIsOk_exists {ε α : Type} {e : Except ε α} (h : e.isOk = true) :
    ∃ a, e = .ok a := by
  cases e with
  | ok a => exact ⟨a, rfl⟩
  | error _ => simp [Except.isOk, Except.toBool] at h

theorem except_bind_ok {ε α β : Type} (a : α) (f : α → Except ε β) :
    (Except.ok a : Except ε α) >>= f = f a := rfl

theorem except_bind_error {ε α β : Type} (e : ε) (f : α → Except ε β) :
    (Except.error e : Except ε α) >>= f = Except.error e := rfl

theorem allSome_eq_some {α : Type} :
    ∀ {xs : List (Option α)} {l : List α}, allSome xs = some l ↔ xs = l.map some := by
  intro xs
  induction xs with
  | nil =>
    intro l
    cases l <;> simp [allSome]
  | cons x xs ih =>
    intro l
    cases x with
    | none => cases l <;> simp [allSome]
    | some a =>
      cases l with
      | nil => simp [allSome]
      | cons b t =>
        simp only [allSome, Option.map_eq_some', List.map_cons, List.cons.injEq,
          Option.some.injEq]
        constructor
        · rintro ⟨l', hl', rfl, rfl⟩
          exact ⟨rfl, ih.mp hl'⟩
        · rintro ⟨rfl, hxs⟩
          exact ⟨t, ih.mpr hxs, rfl, rfl⟩

theorem tfTuple_ok_iff {xs : List (Option Expr)} {l : List Expr} :
    tfTuple xs = .ok l ↔ xs = l.map some := by
  unfold tfTuple
  constructor
  · intro h
    cases hA : allSome xs with
    | none => rw [hA] at h; cases h
    | some l' =>
      rw [hA] at h
      cases h
      exact allSome_eq_some.mp hA
  · intro h
    rw [(allSome_eq_some (l := l)).mpr h]

theorem eval_stopGrad (env : Nat → Int) (a : Expr) :
    eval env (.stopGrad a) = eval env a := rfl

/-- A successful `_rev_layer_backward` returns, as its reconstructed inputs,
exactly the algebraic reconstruction `x2 = y2 - g(stop(y1), stop(g_side))`,
`x1 = y1 - f(stop(x2), stop(f_side))` (the `tf.tuple` barrier passes the
tensors through unchanged). -/
theorem revLayerBackward_ok_ys {ys gradYs : Expr × Expr} {f g : SubFn}
    {fVars fSideInput gVars gSideInput : List Expr} {out : LayerBack}
    (hok : revLayerBackward ys gradYs f g fVars fSideInput gVars gSideInput = .ok out) :
    out.ys.2 = Expr.sub ys.2 (g (Expr.stopGrad ys.1) (gSideInput.map Expr.stopGrad)) ∧
    out.ys.1 = Expr.sub ys.1
      (f (Expr.stopGrad (Expr.sub ys.2 (g (Expr.stopGrad ys.1) (gSideInput.map Expr.stopGrad))))
        (fSideInput.map Expr.stopGrad)) := by
  simp only [revLayerBackward] at hok
  split at hok
  · cases hok
  · split at hok
    · rename_i heqT
      split at hok
      · rename_i x1o x2o gx1o gx2o rest heqTuple
        cases hok
        have hBig := tfTuple_ok_iff.mp heqTuple
        simp only [List.cons_append, List.nil_append, List.map_cons, List.cons.injEq,
          Option.some.injEq] at hBig
        exact ⟨hBig.2.1.symm, hBig.1.symm⟩
      · cases hok
    · cases hok

/-- The variable-attribution loop cannot succeed when some variable's name
fails the `LAYER_RE` pattern: the loop visits every variable, and the failed
match raises before anything is returned. -/
theorem buildVarBuckets_badname {v : TfVar}
    (hbad : matchLayerRE v.name.toList = none) :
    ∀ (vs : List TfVar), v ∈ vs → ∀ (N i : Nat) (st : Buckets) (bk : Buckets),
      buildVarBuckets N i st vs ≠ .ok bk := by
  intro vs
  induction vs with
  | nil => intro hv; cases hv
  | cons w ws ih =>
    intro hv N i st bk h
    cases hp : parseVar w with
    | error e =>
      simp only [buildVarBuckets, hp, except_bind_error] at h
      cases h
    | ok lr =>
      rcases List.mem_cons.mp hv with rfl | hvw
      · simp only [parseVar, hbad] at hp
        cases hp
      · simp only [buildVarBuckets, hp, except_bind_ok] at h
        split at h
        · exact ih hvw N (i + 1) (st.add lr.1 lr.2 w.ref i) bk h
        · cases h

theorem tfAddN_eval (env : Nat → Int) :
    ∀ gs : List Expr, gs ≠ [] → eval env (tfAddN gs) = (gs.map (eval env)).sum := by
  have hfold : ∀ (xs : List Expr) (a : Expr),
      eval env (xs.foldl Expr.add a) = eval env a + (xs.map (eval env)).sum := by
    intro xs
    induction xs with
    | nil => intro a; simp
    | cons x xs ih =>
      intro a
      simp only [List.foldl_cons, ih, List.map_cons, List.sum_cons, eval]
      ring
  intro gs hgs
  cases gs with
  | nil => exact absurd rfl hgs
  | cons x xs => simp [tfAddN, hfold]

theorem sumContrib_eq_sum (env : Nat → Int) :
    ∀ col : List (Option Expr), sumContrib env col = (col.map (evalO env)).sum := by
  have hfold : ∀ (col : List (Option Expr)) (a : Int),
      col.foldl (fun s og => s + evalO env og) a = a + (col.map (evalO env)).sum := by
    intro col
    induction col with
    | nil => intro a; simp
    | cons x xs ih =>
      intro a
      simp only [List.foldl_cons, ih, List.map_cons, List.sum_cons]
      ring
  intro col
  simp [sumContrib, hfold]

theorem evalO_sum_filterMap (env : Nat → Int) :
    ∀ col : List (Option Expr),
      (col.map (evalO env)).sum = ((col.filterMap id).map (eval env)).sum := by
  intro col
  induction col with
  | nil => simp
  | cons x xs ih =>
    cases x with
    | none => simp [evalO, ih]
    | some e => simp [evalO, ih]

/-- One accumulation column of `_acc_grads` evaluates to the sum of the
per-layer contributions with missing (`None`) contributions counting as
zero. -/
theorem accGrads_column_eval (env : Nat → Int) (lls : List (List (Option Expr))) (j : Nat) :
    evalO env ((accGrads lls).getD j none) = sumContrib env ((pyZip lls).getD j []) := by
  by_cases hj : j < (pyZip lls).length
  · have hacc : (accGrads lls).getD j none =
        (fun grads : List (Option Expr) =>
          let gs := grads.filterMap id
          if gs.isEmpty then none else some (tfAddN gs)) ((pyZip lls).getD j []) := by
      unfold accGrads
      rw [List.getD_eq_getElem?_getD, List.getElem?_map]
      rw [List.getElem?_eq_getElem hj]
      simp [List.getD_eq_getElem?_getD, List.getElem?_eq_getElem hj]
    rw [hacc]
    set col := (pyZip lls).getD j [] with hcol
    by_cases hempty : (col.filterMap id).isEmpty
    · simp only [hempty, if_true]
      have hall : ∀ x ∈ col, x = none := by
        intro x hx
        have := (List.filterMap_eq_nil_iff.mp (List.isEmpty_iff.mp hempty)) x hx
        simpa using this
      rw [sumContrib_eq_sum]
      simp only [evalO]
      refine (List.sum_eq_zero ?_).symm
      intro v hv
      obtain ⟨x, hx, rfl⟩ := List.mem_map.mp hv
      rw [hall x hx]
      rfl
    · have hemptyF : (col.filterMap id).isEmpty = false := by
        cases h : (col.filterMap id).isEmpty
        · rfl
        · exact absurd h hempty
      have hne : col.filterMap id ≠ [] := by
        intro h
        rw [h] at hemptyF
        simp at hemptyF
      simp only [hemptyF, Bool.false_eq_true, if_false, evalO]
      rw [tfAddN_eval env _ hne, sumContrib_eq_sum, evalO_sum_filterMap]
  · rw [List.getD_eq_default _ _ (by simpa [accGrads] using Nat.le_of_not_lt hj),
      List.getD_eq_default _ _ (Nat.le_of_not_lt hj)]
    rfl

/-- One backward step of the multi-layer scenario, fully symbolically:
with `f = id` and `g(y1, s) = (y1 - y1) + s` over side input `leaf 2`,
`_rev_layer_backward` succeeds and its `g`-side gradient is precisely the
incoming `grad_y2` seed of that layer. -/
theorem c4_layer_step (y1 y2 d1 d2 : Expr) (hne : y1 ≠ .leaf 2) :
    revLayerBackward (y1, y2) (d1, d2) idF gPassSide [] [] [] [.leaf 2] =
      .ok ⟨(.sub y1 (.stopGrad (.sub y2
              (.add (.sub (.stopGrad y1) (.stopGrad y1)) (.stopGrad (.leaf 2))))),
            .sub y2 (.add (.sub (.stopGrad y1) (.stopGrad y1)) (.stopGrad (.leaf 2)))),
           (.add d1 (.add d2 (.neg d2)),
            .add (.add d1 d2) (.add d2 (.neg d2))),
           [], [], [], [d2]⟩ := by
  have h1 : (Expr.stopGrad (.leaf 2) : Expr) ≠ .stopGrad y1 := by
    intro h
    exact hne (Expr.stopGrad.inj h).symm
  have h2 : (Expr.stopGrad y1 : Expr) ≠ .stopGrad (.leaf 2) := fun h => h1 h.symm
  simp [revLayerBackward, idF, gPassSide, tfGradients, gradT, combineOpt,
    tfTuple, allSome, accGrads, pyZip, minLen, h1, h2]

/-- One iteration of the backward loop of the multi-layer scenario, expressed
as a state transformation (the layer index only selects one of three equal
sub-functions). -/
theorem c4_loop_step (fuel i : Nat) (st : LoopSt) (hi : i < 3)
    (hne : st.ys.1 ≠ .leaf 2) :
    backwardLoop (List.replicate 3 idF) (List.replicate 3 gPassSide)
      (List.replicate 3 []) (List.replicate 3 []) [] [.leaf 2] (fuel + 1) i st =
    backwardLoop (List.replicate 3 idF) (List.replicate 3 gPassSide)
      (List.replicate 3 []) (List.replicate 3 []) [] [.leaf 2] fuel (i + 1) (c4Next st) := by
  obtain ⟨⟨sy1, sy2⟩, ⟨sd1, sd2⟩, fvg, gvg, fsg, gsg⟩ := st
  have hget : ∀ {α : Type} (a : α), listGet (List.replicate 3 a) i = .ok a := by
    intro α a
    unfold listGet
    rw [List.get?_eq_getElem?, List.getElem?_replicate]
    simp [hi]
  simp only [backwardLoop, hget, except_bind_ok]
  rw [c4_layer_step sy1 sy2 sd1 sd2 hne]
  simp only [except_bind_ok, c4Next]

theorem c4Loop_one : c4Loop 1 = .ok (c4St 1) := by
  show backwardLoop (List.replicate 3 idF) (List.replicate 3 gPassSide)
    (List.replicate 3 []) (List.replicate 3 []) [] [.leaf 2] (0 + 1) 0 (c4St 0) = _
  rw [c4_loop_step 0 0 (c4St 0) (by decide) (by decide)]
  rfl

theorem c4Loop_two : c4Loop 2 = .ok (c4St 2) := by
  show backwardLoop (List.replicate 3 idF) (List.replicate 3 gPassSide)
    (List.replicate 3 []) (List.replicate 3 []) [] [.leaf 2] (1 + 1) 0 (c4St 0) = _
  rw [c4_loop_step 1 0 (c4St 0) (by decide) (by decide)]
  show backwardLoop (List.replicate 3 idF) (List.replicate 3 gPassSide)
    (List.replicate 3 []) (List.replicate 3 []) [] [.leaf 2] (0 + 1) 1 (c4St 1) = _
  rw [c4_loop_step 0 1 (c4St 1) (by decide) (by decide)]
  rfl

theorem c4Loop_three : c4Loop 3 = .ok (c4St 3) := by
  show backwardLoop (List.replicate 3 idF) (List.replicate 3 gPassSide)
    (List.replicate 3 []) (List.replicate 3 []) [] [.leaf 2] (2 + 1) 0 (c4St 0) = _
  rw [c4_loop_step 2 0 (c4St 0) (by decide) (by decide)]
  show backwardLoop (List.replicate 3 idF) (List.replicate 3 gPassSide)
    (List.replicate 3 []) (List.replicate 3 []) [] [.leaf 2] (1 + 1) 1 (c4St 1) = _
  rw [c4_loop_step 1 1 (c4St 1) (by decide) (by decide)]
  show backwardLoop (List.replicate 3 idF) (List.replicate 3 gPassSide)
    (List.replicate 3 []) (List.replicate 3 []) [] [.leaf 2] (0 + 1) 2 (c4St 2) = _
  rw [c4_loop_step 0 2 (c4St 2) (by decide) (by decide)]
  rfl

theorem tfGradients_length (ys xs gradYs : List Expr) :
    (tfGradients ys xs gradYs).length = xs.length := by
  simp [tfGradients]

theorem pyZip_length {α : Type} (ls : List (List α)) : (pyZip ls).length = minLen ls := by
  simp [pyZip]

theorem accGrads_length (lls : List (List (Option Expr))) :
    (accGrads lls).length = minLen lls := by
  simp [accGrads, pyZip]

theorem minLen_pair {α : Type} (a b : List α) :
    minLen [a, b] = Nat.min a.length b.length := rfl

theorem minLen_of_all_eq {α : Type} (m : Nat) :
    ∀ ls : List (List α), ls ≠ [] → (∀ x ∈ ls, x.length = m) → minLen ls = m := by
  intro ls
  induction ls with
  | nil => intro h; exact absurd rfl h
  | cons a ls ih =>
    intro _ hall
    cases ls with
    | nil => simpa using hall a (by simp)
    | cons b t =>
      have h1 : a.length = m := hall a (by simp)
      have h2 : minLen (b :: t) = m := ih (by simp) (fun x hx => hall x (by simp [hx]))
      show Nat.min a.length (minLen (b :: t)) = m
      rw [h1, h2]
      exact Nat.min_self m

/-- Lengths of the per-layer gradient lists of a successful
`_rev_layer_backward`: one gradient per `f`-variable, per `g`-variable, per
`f`-side input and per `g`-side input. -/
theorem revLayerBackward_ok_lengths {ys gradYs : Expr × Expr} {f g : SubFn}
    {fVars fSideInput gVars gSideInput : List Expr} {out : LayerBack}
    (hok : revLayerBackward ys gradYs f g fVars fSideInput gVars gSideInput = .ok out) :
    out.gradFVars.length = fVars.length ∧ out.gradGVars.length = gVars.length ∧
    out.gradFSide.length = fSideInput.length ∧ out.gradGSide.length = gSideInput.length := by
  simp only [revLayerBackward] at hok
  split at hok
  · cases hok
  · split at hok
    · rename_i heqT
      split at hok
      · rename_i x1o x2o gx1o gx2o rest heqTuple
        cases hok
        have hBig := tfTuple_ok_iff.mp heqTuple
        have hm1 : ∀ a b : Nat, Nat.min a b = min a b := fun _ _ => rfl
        have hm2 : ∀ a b : Nat, a ⊓ b = min a b := fun _ _ => rfl
        have hm3 : ∀ a b : Nat, min a (a + b) = a :=
          fun a b => Nat.min_eq_left (Nat.le_add_right a b)
        have hlen := congrArg List.length hBig
        simp only [List.length_append, List.length_map, List.length_cons,
          accGrads_length, minLen_pair, List.length_take, List.length_drop,
          tfGradients_length, hm1, hm2, hm3, min_self, List.length_nil] at hlen
        refine ⟨?_, ?_, ?_, ?_⟩ <;>
          simp only [List.length_take, List.length_drop, accGrads_length,
            minLen_pair, tfGradients_length, List.length_append, List.length_map,
            hm1, hm2, hm3, min_self] <;>
          omega
      · cases hok
    · cases hok

theorem listGet_ok {α : Type} {l : List α} {i : Nat} {x : α}
    (h : listGet l i = .ok x) : l.get? i = some x := by
  unfold listGet at h
  cases hg : l.get? i with
  | none => rw [hg] at h; cases h
  | some y => rw [hg] at h; cases h; rfl

theorem getD_of_get? {α : Type} {l : List α} {i : Nat} {x : α} (d : α)
    (h : l.get? i = some x) : l.getD i d = x := by
  rw [List.getD_eq_getElem?_getD, ← List.get?_eq_getElem?, h]
  rfl

/-- A successful backward loop of `fuel` iterations starting at layer index
`i` appends exactly `fuel` per-layer gradient lists to each accumulator, the
`j`-th appended list having one entry per variable of (reversed) layer
`i + j` for the variable accumulators, and one entry per side input for the
side accumulators. -/
theorem backwardLoop_ok_shape (fR gR : List SubFn) (fVarsR gVarsR : List (List Expr))
    (fSide gSide : List Expr) :
    ∀ (fuel i : Nat) (st st' : LoopSt),
      backwardLoop fR gR fVarsR gVarsR fSide gSide fuel i st = .ok st' →
      ∃ newF newG newFS newGS : List (List Expr),
        st'.fVarGrads = st.fVarGrads ++ newF ∧
        st'.gVarGrads = st.gVarGrads ++ newG ∧
        st'.fSideGrads = st.fSideGrads ++ newFS ∧
        st'.gSideGrads = st.gSideGrads ++ newGS ∧
        newF.length = fuel ∧ newG.length = fuel ∧
        newFS.length = fuel ∧ newGS.length = fuel ∧
        (∀ j, j < fuel → (newF.getD j []).length = (fVarsR.getD (i + j) []).length) ∧
        (∀ j, j < fuel → (newG.getD j []).length = (gVarsR.getD (i + j) []).length) ∧
        (∀ j, j < fuel → (newFS.getD j []).length = fSide.length) ∧
        (∀ j, j < fuel → (newGS.getD j []).length = gSide.length) := by
  intro fuel
  induction fuel with
  | zero =>
    intro i st st' h
    cases h
    exact ⟨[], [], [], [], by simp, by simp, by simp, by simp, rfl, rfl, rfl, rfl,
      fun j hj => absurd hj (by omega), fun j hj => absurd hj (by omega),
      fun j hj => absurd hj (by omega), fun j hj => absurd hj (by omega)⟩
  | succ fuel ih =>
    intro i st st' h
    simp only [backwardLoop] at h
    cases hfi : listGet fR i with
    | error e => rw [hfi] at h; cases h
    | ok fi =>
    rw [hfi] at h
    simp only [except_bind_ok] at h
    cases hgi : listGet gR i with
    | error e => rw [hgi] at h; cases h
    | ok gi =>
    rw [hgi] at h
    simp only [except_bind_ok] at h
    cases hfv : listGet fVarsR i with
    | error e => rw [hfv] at h; cases h
    | ok fv =>
    rw [hfv] at h
    simp only [except_bind_ok] at h
    cases hgv : listGet gVarsR i with
    | error e => rw [hgv] at h; cases h
    | ok gv =>
    rw [hgv] at h
    simp only [except_bind_ok] at h
    cases hlb : revLayerBackward st.ys st.gradYs fi gi fv fSide gv gSide with
    | error e => rw [hlb] at h; cases h
    | ok lb =>
    rw [hlb] at h
    simp only [except_bind_ok] at h
    obtain ⟨nF, nG, nFS, nGS, e1, e2, e3, e4, l1, l2, l3, l4, j1, j2, j3, j4⟩ :=
      ih (i + 1) _ st' h
    simp only at e1 e2 e3 e4
    obtain ⟨q1, q2, q3, q4⟩ := revLayerBackward_ok_lengths hlb
    refine ⟨lb.gradFVars :: nF, lb.gradGVars :: nG, lb.gradFSide :: nFS, lb.gradGSide :: nGS,
      ?_, ?_, ?_, ?_, by simp [l1], by simp [l2], by simp [l3], by simp [l4],
      ?_, ?_, ?_, ?_⟩
    · rw [e1]; simp
    · rw [e2]; simp
    · rw [e3]; simp
    · rw [e4]; simp
    · intro j hj
      cases j with
      | zero =>
        have hfvD : fVarsR[i]? = some fv := by
          rw [← List.get?_eq_getElem?]
          exact listGet_ok hfv
        simp [hfvD, q1]
      | succ j =>
        rw [List.getD_cons_succ, show i + (j + 1) = i + 1 + j by omega]
        exact j1 j (by omega)
    · intro j hj
      cases j with
      | zero =>
        have hgvD : gVarsR[i]? = some gv := by
          rw [← List.get?_eq_getElem?]
          exact listGet_ok hgv
        simp [hgvD, q2]
      | succ j =>
        rw [List.getD_cons_succ, show i + (j + 1) = i + 1 + j by omega]
        exact j2 j (by omega)
    · intro j hj
      cases j with
      | zero => simpa using q3
      | succ j =>
        rw [List.getD_cons_succ]
        exact j3 j (by omega)
    · intro j hj
      cases j with
      | zero => simpa using q4
      | succ j =>
        rw [List.getD_cons_succ]
        exact j4 j (by omega)

theorem getD_set_eq {α : Type} (l : List α) (k : Nat) (x d : α) (h : k < l.length) :
    (l.set k x).getD k d = x := by
  rw [List.getD_eq_getElem?_getD, List.getElem?_set_eq_of_lt x h]
  rfl

theorem getD_set_ne {α : Type} (l : List α) (k : Nat) (x d : α) (j : Nat) (h : k ≠ j) :
    (l.set k x).getD j d = l.getD j d := by
  rw [List.getD_eq_getElem?_getD, List.getD_eq_getElem?_getD, List.getElem?_set_ne h]

theorem getD_replicate_nil {α : Type} (N l : Nat) :
    (List.replicate N ([] : List α)).getD l [] = [] := by
  rw [List.getD_eq_getElem?_getD, List.getElem?_replicate]
  split <;> rfl

theorem bucketSpecIdxs_cons_ok {v : TfVar} {lr : Nat × Bool}
    (hp : parseVar v = .ok lr) (role : Bool) (l i : Nat) (vs : List TfVar) :
    bucketSpecIdxs role l i (v :: vs) =
      if lr = (l, role) then i :: bucketSpecIdxs role l (i + 1) vs
      else bucketSpecIdxs role l (i + 1) vs := by
  simp only [bucketSpecIdxs, hp]

theorem bucketSpecIdxs_cons_err {v : TfVar} {e : Err}
    (hp : parseVar v = .error e) (role : Bool) (l i : Nat) (vs : List TfVar) :
    bucketSpecIdxs role l i (v :: vs) = bucketSpecIdxs role l (i + 1) vs := by
  simp only [bucketSpecIdxs, hp]

theorem bucketSpecIdxs_bounds (role : Bool) (l : Nat) :
    ∀ (vs : List TfVar) (i j : Nat), j ∈ bucketSpecIdxs role l i vs →
      i ≤ j ∧ j < i + vs.length := by
  intro vs
  induction vs with
  | nil =>
    intro i j hj
    simp [bucketSpecIdxs] at hj
  | cons v vs ih =>
    intro i j hj
    cases hp : parseVar v with
    | ok lr =>
      rw [bucketSpecIdxs_cons_ok hp] at hj
      by_cases hlr : lr = (l, role)
      · rw [if_pos hlr] at hj
        rcases List.mem_cons.mp hj with rfl | hj
        · simp only [List.length_cons]
          omega
        · have := ih (i + 1) j hj
          simp only [List.length_cons]
          omega
      · rw [if_neg hlr] at hj
        have := ih (i + 1) j hj
        simp only [List.length_cons]
        omega
    | error e =>
      rw [bucketSpecIdxs_cons_err hp] at hj
      have := ih (i + 1) j hj
      simp only [List.length_cons]
      omega

theorem bucketSpecIdxs_sorted (role : Bool) (l : Nat) :
    ∀ (vs : List TfVar) (i : Nat), List.Pairwise (· < ·) (bucketSpecIdxs role l i vs) := by
  intro vs
  induction vs with
  | nil => intro i; simp [bucketSpecIdxs]
  | cons v vs ih =>
    intro i
    cases hp : parseVar v with
    | ok lr =>
      rw [bucketSpecIdxs_cons_ok hp]
      by_cases hlr : lr = (l, role)
      · rw [if_pos hlr]
        refine List.Pairwise.cons ?_ (ih (i + 1))
        intro j hj
        have := bucketSpecIdxs_bounds role l vs (i + 1) j hj
        omega
      · rw [if_neg hlr]
        exact ih (i + 1)
    | error e =>
      rw [bucketSpecIdxs_cons_err hp]
      exact ih (i + 1)

theorem bucketSpecIdxs_nodup (role : Bool) (l : Nat) (vs : List TfVar) (i : Nat) :
    (bucketSpecIdxs role l i vs).Nodup :=
  (bucketSpecIdxs_sorted role l vs i).imp Nat.ne_of_lt

theorem bucketSpecIdxs_disjoint {role role' : Bool} {l l' : Nat}
    (hne : (l, role) ≠ (l', role')) :
    ∀ (vs : List TfVar) (i j : Nat), j ∈ bucketSpecIdxs role l i vs →
      j ∉ bucketSpecIdxs role' l' i vs := by
  intro vs
  induction vs with
  | nil => intro i j hj; simp [bucketSpecIdxs] at hj
  | cons v vs ih =>
    intro i j hj hj'
    cases hp : parseVar v with
    | ok lr =>
      rw [bucketSpecIdxs_cons_ok hp] at hj hj'
      by_cases h1 : lr = (l, role)
      · have h2 : lr ≠ (l', role') := fun h => hne (by rw [← h1, h])
        rw [if_neg h2] at hj'
        rw [if_pos h1] at hj
        rcases List.mem_cons.mp hj with rfl | hj
        · have := bucketSpecIdxs_bounds role' l' vs (j + 1) j hj'
          omega
        · exact ih (i + 1) j hj hj'
      · rw [if_neg h1] at hj
        by_cases h2 : lr = (l', role')
        · rw [if_pos h2] at hj'
          rcases List.mem_cons.mp hj' with rfl | hj'
          · have := bucketSpecIdxs_bounds role l vs (j + 1) j hj
            omega
          · exact ih (i + 1) j hj hj'
        · rw [if_neg h2] at hj'
          exact ih (i + 1) j hj hj'
    | error e =>
      rw [bucketSpecIdxs_cons_err hp] at hj hj'
      exact ih (i + 1) j hj hj'

theorem bIdxs_add (b : Buckets) (l₀ : Nat) (role₀ : Bool) (ref : Expr) (i : Nat)
    (role : Bool) (l : Nat)
    (hl : l₀ < (if role₀ then b.fIdxs else b.gIdxs).length) :
    bIdxs (b.add l₀ role₀ ref i) role l =
      if role = role₀ ∧ l = l₀ then bIdxs b role l ++ [i] else bIdxs b role l := by
  cases role₀ <;> cases role <;>
    simp only [Buckets.add, bIdxs, if_true, if_false, Bool.true_eq_false,
      Bool.false_eq_true, false_and, and_true, true_and, if_neg, not_false_iff] <;>
    try rfl
  · by_cases hll : l = l₀
    · subst hll
      rw [if_pos rfl]
      exact getD_set_eq _ _ _ _ (by simpa using hl)
    · rw [if_neg (by simp [hll])]
      exact getD_set_ne _ _ _ _ _ (fun h => hll h.symm)
  · by_cases hll : l = l₀
    · subst hll
      rw [if_pos rfl]
      exact getD_set_eq _ _ _ _ (by simpa using hl)
    · rw [if_neg (by simp [hll])]
      exact getD_set_ne _ _ _ _ _ (fun h => hll h.symm)

theorem bVars_add (b : Buckets) (l₀ : Nat) (role₀ : Bool) (ref : Expr) (i : Nat)
    (role : Bool) (l : Nat)
    (hl : l₀ < (if role₀ then b.fVars else b.gVars).length) :
    bVars (b.add l₀ role₀ ref i) role l =
      if role = role₀ ∧ l = l₀ then bVars b role l ++ [ref] else bVars b role l := by
  cases role₀ <;> cases role <;>
    simp only [Buckets.add, bVars, if_true, if_false, Bool.true_eq_false,
      Bool.false_eq_true, false_and, and_true, true_and, if_neg, not_false_iff] <;>
    try rfl
  · by_cases hll : l = l₀
    · subst hll
      rw [if_pos rfl]
      exact getD_set_eq _ _ _ _ (by simpa using hl)
    · rw [if_neg (by simp [hll])]
      exact getD_set_ne _ _ _ _ _ (fun h => hll h.symm)
  · by_cases hll : l = l₀
    · subst hll
      rw [if_pos rfl]
      exact getD_set_eq _ _ _ _ (by simpa using hl)
    · rw [if_neg (by simp [hll])]
      exact getD_set_ne _ _ _ _ _ (fun h => hll h.symm)

/-- Characterization of the variable-attribution loop: on success, each
`(layer, role)` index bucket extends the incoming bucket by exactly the flat
positions of the variables that parse to that `(layer, role)` (in increasing
order), and the ref buckets grow in parallel. -/
theorem buildVarBuckets_char :
    ∀ (vs : List TfVar) (N i : Nat) (st bk : Buckets),
      st.fIdxs.length = N → st.gIdxs.length = N →
      st.fVars.length = N → st.gVars.length = N →
      buildVarBuckets N i st vs = .ok bk →
      bk.fIdxs.length = N ∧ bk.gIdxs.length = N ∧
      bk.fVars.length = N ∧ bk.gVars.length = N ∧
      (∀ role l, bIdxs bk role l = bIdxs st role l ++ bucketSpecIdxs role l i vs) ∧
      (∀ role l, (bVars bk role l).length =
        (bVars st role l).length + (bucketSpecIdxs role l i vs).length) := by
  intro vs
  induction vs with
  | nil =>
    intro N i st bk h1 h2 h3 h4 h
    cases h
    exact ⟨h1, h2, h3, h4, fun role l => by simp [bucketSpecIdxs],
      fun role l => by simp [bucketSpecIdxs]⟩
  | cons v vs ih =>
    intro N i st bk h1 h2 h3 h4 h
    simp only [buildVarBuckets] at h
    cases hp : parseVar v with
    | error e => rw [hp] at h; cases h
    | ok lr =>
      rw [hp] at h
      simp only [except_bind_ok] at h
      split at h
      · rename_i hlN
        have hidx : ∀ role l,
            bIdxs (st.add lr.1 lr.2 v.ref i) role l =
              if role = lr.2 ∧ l = lr.1 then bIdxs st role l ++ [i] else bIdxs st role l :=
          fun role l => bIdxs_add st lr.1 lr.2 v.ref i role l
            (by cases hr2 : lr.2 <;> simp [hr2, h1, h2, hlN])
        have hvar : ∀ role l,
            bVars (st.add lr.1 lr.2 v.ref i) role l =
              if role = lr.2 ∧ l = lr.1 then bVars st role l ++ [v.ref] else bVars st role l :=
          fun role l => bVars_add st lr.1 lr.2 v.ref i role l
            (by cases hr2 : lr.2 <;> simp [hr2, h3, h4, hlN])
        have hlen : (st.add lr.1 lr.2 v.ref i).fIdxs.length = N ∧
            (st.add lr.1 lr.2 v.ref i).gIdxs.length = N ∧
            (st.add lr.1 lr.2 v.ref i).fVars.length = N ∧
            (st.add lr.1 lr.2 v.ref i).gVars.length = N := by
          cases hr2 : lr.2 <;> simp [Buckets.add, hr2, h1, h2, h3, h4]
        obtain ⟨k1, k2, k3, k4, hrec, hrecv⟩ :=
          ih N (i + 1) _ bk hlen.1 hlen.2.1 hlen.2.2.1 hlen.2.2.2 h
        refine ⟨k1, k2, k3, k4, ?_, ?_⟩
        · intro role l
          rw [hrec role l, hidx role l]
          have hspec : bucketSpecIdxs role l i (v :: vs) =
              if lr = (l, role) then i :: bucketSpecIdxs role l (i + 1) vs
              else bucketSpecIdxs role l (i + 1) vs := by
            simp only [bucketSpecIdxs, hp]
          rw [hspec]
          by_cases hc : role = lr.2 ∧ l = lr.1
          · rw [if_pos hc, if_pos (by cases lr; simp at hc ⊢; exact ⟨hc.2.symm, hc.1.symm⟩)]
            simp
          · rw [if_neg hc, if_neg (by cases lr; simp at hc ⊢; intro ha hb; exact hc hb.symm ha.symm)]
        · intro role l
          rw [hrecv role l, hvar role l]
          have hspec : bucketSpecIdxs role l i (v :: vs) =
              if lr = (l, role) then i :: bucketSpecIdxs role l (i + 1) vs
              else bucketSpecIdxs role l (i + 1) vs := by
            simp only [bucketSpecIdxs, hp]
          rw [hspec]
          by_cases hc : role = lr.2 ∧ l = lr.1
          · rw [if_pos hc, if_pos (by cases lr; simp at hc ⊢; exact ⟨hc.2.symm, hc.1.symm⟩)]
            simp
            omega
          · rw [if_neg hc, if_neg (by cases lr; simp at hc ⊢; intro ha hb; exact hc hb.symm ha.symm)]
      · cases h

theorem writeOne_nil_left (init : List (Option Expr)) (grads : List Expr) :
    writeOne init [] grads = init := rfl

theorem writeOne_nil_right (init : List (Option Expr)) (idxs : List Nat) :
    writeOne init idxs [] = init := by
  cases idxs <;> rfl

theorem writeOne_cons (init : List (Option Expr)) (a : Nat) (idxs : List Nat)
    (g : Expr) (grads : List Expr) :
    writeOne init (a :: idxs) (g :: grads) = writeOne (init.set a (some g)) idxs grads := rfl

theorem writeOne_length :
    ∀ (idxs : List Nat) (grads : List Expr) (init : List (Option Expr)),
      (writeOne init idxs grads).length = init.length := by
  intro idxs
  induction idxs with
  | nil => intro grads init; rfl
  | cons a rest ih =>
    intro grads init
    cases grads with
    | nil => rw [writeOne_nil_right]
    | cons g gs => rw [writeOne_cons, ih, List.length_set]

theorem writeOne_untouched :
    ∀ (idxs : List Nat) (grads : List Expr) (init : List (Option Expr)) (j : Nat),
      j ∉ idxs → (writeOne init idxs grads).getD j none = init.getD j none := by
  intro idxs
  induction idxs with
  | nil => intro grads init j _; rfl
  | cons a rest ih =>
    intro grads init j hj
    cases grads with
    | nil => rw [writeOne_nil_right]
    | cons g gs =>
      rw [writeOne_cons, ih gs _ j (fun h => hj (List.mem_cons_of_mem a h))]
      exact getD_set_ne _ _ _ _ _ (fun h => hj (h ▸ List.mem_cons_self a rest))

theorem writeOne_hit :
    ∀ (idxs : List Nat) (grads : List Expr) (init : List (Option Expr)) (k : Nat),
      idxs.Nodup → idxs.length = grads.length → (∀ x ∈ idxs, x < init.length) →
      k < idxs.length →
      (writeOne init idxs grads).getD (idxs.getD k 0) none =
        some (grads.getD k (.const 0)) := by
  intro idxs
  induction idxs with
  | nil => intro grads init k _ _ _ hk; cases hk
  | cons a rest ih =>
    intro grads init k hnd hlen hbound hk
    cases grads with
    | nil => simp at hlen
    | cons g gs =>
      rw [writeOne_cons]
      cases k with
      | zero =>
        rw [List.getD_cons_zero, List.getD_cons_zero]
        rw [writeOne_untouched rest gs _ a (List.nodup_cons.mp hnd).1]
        exact getD_set_eq _ _ _ _ (hbound a (List.mem_cons_self a rest))
      | succ k =>
        rw [List.getD_cons_succ, List.getD_cons_succ]
        refine ih gs _ k (List.nodup_cons.mp hnd).2 (by simpa using hlen) ?_ (by simpa using hk)
        intro x hx
        rw [List.length_set]
        exact hbound x (List.mem_cons_of_mem a hx)

theorem scatterWrites_nil (init : List (Option Expr)) : scatterWrites init [] = init := rfl

theorem scatterWrites_cons (init : List (Option Expr)) (w : List Nat × List Expr)
    (rest : List (List Nat × List Expr)) :
    scatterWrites init (w :: rest) = scatterWrites (writeOne init w.1 w.2) rest := rfl

theorem scatterWrites_length :
    ∀ (writes : List (List Nat × List Expr)) (init : List (Option Expr)),
      (scatterWrites init writes).length = init.length := by
  intro writes
  induction writes with
  | nil => intro init; rfl
  | cons w rest ih =>
    intro init
    rw [scatterWrites_cons, ih, writeOne_length]

theorem scatterWrites_untouched :
    ∀ (writes : List (List Nat × List Expr)) (init : List (Option Expr)) (j : Nat),
      (∀ w ∈ writes, j ∉ w.1) →
      (scatterWrites init writes).getD j none = init.getD j none := by
  intro writes
  induction writes with
  | nil => intro init j _; rfl
  | cons w rest ih =>
    intro init j hj
    rw [scatterWrites_cons, ih _ j (fun p hp => hj p (List.mem_cons_of_mem w hp))]
    exact writeOne_untouched _ _ _ _ (hj w (List.mem_cons_self w rest))

/-- Reading back a scattered write: under pairwise-disjoint, in-bounds,
duplicate-free index lists matching their gradient lists in length, the final
array holds, at the `k`-th index of any write pair, exactly the `k`-th
gradient of that pair. -/
theorem scatterWrites_readback :
    ∀ (writes : List (List Nat × List Expr)) (init : List (Option Expr))
      (w : List Nat × List Expr), w ∈ writes →
      List.Pairwise (fun p q => ∀ x ∈ p.1, x ∉ q.1) writes →
      (∀ p ∈ writes, p.1.Nodup ∧ p.1.length = p.2.length ∧ ∀ x ∈ p.1, x < init.length) →
      ∀ k, k < w.1.length →
      (scatterWrites init writes).getD (w.1.getD k 0) none =
        some (w.2.getD k (.const 0)) := by
  intro writes
  induction writes with
  | nil => intro init w hw; cases hw
  | cons w0 rest ih =>
    intro init w hw hpair hprops k hk
    rw [scatterWrites_cons]
    rcases List.mem_cons.mp hw with rfl | hw
    · have hmem : w.1.getD k 0 ∈ w.1 := by
        rw [List.getD_eq_getElem _ _ hk]
        exact List.getElem_mem _
      rw [scatterWrites_untouched rest _ _
        (fun p hp => (List.pairwise_cons.mp hpair).1 p hp _ hmem)]
      obtain ⟨hnd, hlen, hbound⟩ := hprops w (List.mem_cons_self w rest)
      exact writeOne_hit w.1 w.2 init k hnd hlen hbound hk
    · refine ih _ w hw (List.pairwise_cons.mp hpair).2 ?_ k hk
      intro p hp
      obtain ⟨h1, h2, h3⟩ := hprops p (List.mem_cons_of_mem w0 hp)
      exact ⟨h1, h2, fun x hx => by rw [writeOne_length]; exact h3 x hx⟩

theorem scatterSide_nil_left (init : List (Option Expr)) (grads : List (Option Expr)) :
    scatterSide init [] grads = .ok init := rfl

theorem scatterSide_nil_right (init : List (Option Expr)) (idxs : List (Option Nat)) :
    scatterSide init idxs [] = .ok init := by
  cases idxs <;> rfl

theorem scatterSide_cons_some (init : List (Option Expr)) (i : Nat)
    (idxs : List (Option Nat)) (g : Option Expr) (grads : List (Option Expr)) :
    scatterSide init (some i :: idxs) (g :: grads) = scatterSide (init.set i g) idxs grads := rfl

theorem scatterSide_ok_length :
    ∀ (idxs : List (Option Nat)) (grads : List (Option Expr))
      (init out : List (Option Expr)),
      scatterSide init idxs grads = .ok out → out.length = init.length := by
  intro idxs
  induction idxs with
  | nil =>
    intro grads init out h
    rw [scatterSide_nil_left] at h
    cases h
    rfl
  | cons oi rest ih =>
    intro grads init out h
    cases grads with
    | nil =>
      rw [scatterSide_nil_right] at h
      cases h
      rfl
    | cons g gs =>
      cases oi with
      | none => cases h
      | some i =>
        rw [scatterSide_cons_some] at h
        rw [ih gs _ out h, List.length_set]

/-- Scattering a gradient list at the consecutive positions
`a, a+1, …, a+k-1` overwrites exactly that segment. -/
theorem scatterSide_range' :
    ∀ (k a : Nat) (grads : List (Option Expr)) (L : List (Option Expr)),
      grads.length = k → a + k ≤ L.length →
      scatterSide L ((List.range' a k).map some) grads =
        .ok (L.take a ++ grads ++ L.drop (a + k)) := by
  intro k
  induction k with
  | zero =>
    intro a grads L hlen _
    rw [List.length_eq_zero.mp hlen]
    rw [List.range', List.map_nil]
    rw [scatterSide_nil_left]
    simp
  | succ k ih =>
    intro a grads L hlen hb
    cases grads with
    | nil => simp at hlen
    | cons g gs =>
      rw [List.range'_succ, List.map_cons, scatterSide_cons_some]
      rw [ih (a + 1) gs (L.set a g) (by simpa using hlen) (by rw [List.length_set]; omega)]
      have ha : a < L.length := by omega
      rw [List.set_eq_take_cons_drop g ha]
      have hpre : (L.take a).length = a := List.length_take_of_le (by omega)
      have htake : (L.take a ++ g :: L.drop (a + 1)).take (a + 1) = L.take a ++ [g] := by
        rw [show a + 1 = (L.take a).length + 1 by rw [hpre]]
        rw [List.take_append]
        simp
      have hdrop : (L.take a ++ g :: L.drop (a + 1)).drop (a + 1 + k) =
          L.drop (a + (k + 1)) := by
        rw [show a + 1 + k = (L.take a).length + (1 + k) by rw [hpre]; omega]
        rw [List.drop_append]
        rw [show (1 : Nat) + k = k + 1 by omega]
        rw [List.drop_succ_cons]
        rw [List.drop_drop]
        rw [show a + 1 + k = a + (k + 1) by omega]
      rw [htake, hdrop]
      simp

theorem bsi_cons_mem_f {t : Expr} {fSide gSide : List Expr} (hf : t ∈ fSide)
    (i : Nat) (ts : List Expr) (fI gI : List (Option Nat)) :
    buildSideIdxsAux fSide gSide i (t :: ts) (fI, gI) =
      buildSideIdxsAux fSide gSide (i + 1) ts (fI.set (fSide.indexOf t) (some i), gI) := by
  simp only [buildSideIdxsAux, if_pos hf]

theorem bsi_cons_mem_g {t : Expr} {fSide gSide : List Expr} (hf : t ∉ fSide)
    (hg : t ∈ gSide) (i : Nat) (ts : List Expr) (fI gI : List (Option Nat)) :
    buildSideIdxsAux fSide gSide i (t :: ts) (fI, gI) =
      buildSideIdxsAux fSide gSide (i + 1) ts (fI, gI.set (gSide.indexOf t) (some i)) := by
  simp only [buildSideIdxsAux, if_neg hf, if_pos hg]

theorem bsi_gphase (fSide gSide : List Expr) :
    ∀ (grest gdone : List Expr) (fI : List (Option Nat)),
      gSide = gdone ++ grest →
      (∀ t ∈ grest, t ∉ fSide) →
      gSide.Nodup →
      buildSideIdxsAux fSide gSide (fSide.length + gdone.length) grest
        (fI, (List.range' fSide.length gdone.length).map some ++
             List.replicate grest.length none) =
      .ok (fI, (List.range' fSide.length gSide.length).map some) := by
  intro grest
  induction grest with
  | nil =>
    intro gdone fI hg _ _
    rw [List.append_nil] at hg
    subst hg
    simp [buildSideIdxsAux]
  | cons t grest ih =>
    intro gdone fI hg hdisj hnd
    have htg : t ∈ gSide := by rw [hg]; simp
    have htf : t ∉ fSide := hdisj t (by simp)
    have htgdone : t ∉ gdone := by
      intro hmem
      rw [hg] at hnd
      have := List.disjoint_of_nodup_append hnd hmem
      simp at this
    have hidx : gSide.indexOf t = gdone.length := by
      rw [hg, List.indexOf_append_of_not_mem htgdone, List.indexOf_cons_self,
        Nat.add_zero]
    rw [bsi_cons_mem_g htf htg]
    have hset :
        ((List.range' fSide.length gdone.length).map some ++
          List.replicate (t :: grest).length none).set (gSide.indexOf t)
          (some (fSide.length + gdone.length)) =
        (List.range' fSide.length (gdone.length + 1)).map some ++
          List.replicate grest.length none := by
      rw [hidx, List.set_append_right _ _ (le_of_eq (by simp))]
      rw [show ((List.range' fSide.length gdone.length).map some).length = gdone.length
        from by simp]
      rw [Nat.sub_self, List.length_cons, List.replicate_succ, List.set_cons_zero]
      rw [List.range'_1_concat, List.map_append]
      simp
    rw [hset]
    have hg' : gSide = (gdone ++ [t]) ++ grest := by rw [hg]; simp
    have h := ih (gdone ++ [t]) fI hg'
      (fun t' ht' => hdisj t' (List.mem_cons_of_mem _ ht')) hnd
    rw [show (gdone ++ [t]).length = gdone.length + 1 from by simp] at h
    rw [show fSide.length + gdone.length + 1 = fSide.length + (gdone.length + 1)
      from by omega]
    exact h

theorem bsi_fphase (fSide gSide : List Expr) :
    ∀ (frest fdone : List Expr),
      fSide = fdone ++ frest →
      fSide.Nodup →
      (∀ t ∈ gSide, t ∉ fSide) →
      gSide.Nodup →
      buildSideIdxsAux fSide gSide fdone.length (frest ++ gSide)
        ((List.range' 0 fdone.length).map some ++ List.replicate frest.length none,
         List.replicate gSide.length none) =
      .ok ((List.range' 0 fSide.length).map some,
           (List.range' fSide.length gSide.length).map some) := by
  intro frest
  induction frest with
  | nil =>
    intro fdone hf _ hdisj hndg
    rw [List.append_nil] at hf
    subst hf
    have h := bsi_gphase fSide gSide gSide [] ((List.range' 0 fSide.length).map some)
      (by simp) hdisj hndg
    simpa using h
  | cons t frest ih =>
    intro fdone hf hndf hdisj hndg
    have htf : t ∈ fSide := by rw [hf]; simp
    have htfdone : t ∉ fdone := by
      intro hmem
      rw [hf] at hndf
      have := List.disjoint_of_nodup_append hndf hmem
      simp at this
    have hidx : fSide.indexOf t = fdone.length := by
      rw [hf, List.indexOf_append_of_not_mem htfdone, List.indexOf_cons_self,
        Nat.add_zero]
    rw [List.cons_append, bsi_cons_mem_f htf]
    have hset :
        ((List.range' 0 fdone.length).map some ++
          List.replicate (t :: frest).length none).set (fSide.indexOf t)
          (some fdone.length) =
        (List.range' 0 (fdone.length + 1)).map some ++
          List.replicate frest.length none := by
      rw [hidx, List.set_append_right _ _ (le_of_eq (by simp))]
      rw [show ((List.range' 0 fdone.length).map some).length = fdone.length
        from by simp]
      rw [Nat.sub_self, List.length_cons, List.replicate_succ, List.set_cons_zero]
      rw [List.range'_1_concat, List.map_append]
      simp
    rw [hset]
    have hf' : fSide = (fdone ++ [t]) ++ frest := by rw [hf]; simp
    have h := ih (fdone ++ [t]) hf' hndf hdisj hndg
    rw [show (fdone ++ [t]).length = fdone.length + 1 from by simp] at h
    exact h

theorem buildSideIdxs_char (fSide gSide : List Expr)
    (hnd : (fSide ++ gSide).Nodup) :
    buildSideIdxsAux fSide gSide 0 (fSide ++ gSide)
      (List.replicate fSide.length none, List.replicate gSide.length none) =
    .ok ((List.range' 0 fSide.length).map some,
         (List.range' fSide.length gSide.length).map some) := by
  have hparts := List.nodup_append.mp hnd
  have hdisj : ∀ t ∈ gSide, t ∉ fSide := by
    intro t ht hfmem
    exact hparts.2.2 hfmem ht
  have h := bsi_fphase fSide gSide fSide [] (by simp) hparts.1 hdisj hparts.2.1
  simpa using h

theorem bIdxs_true (b : Buckets) (l : Nat) : bIdxs b true l = b.fIdxs.getD l [] := rfl

theorem bIdxs_false (b : Buckets) (l : Nat) : bIdxs b false l = b.gIdxs.getD l [] := rfl

theorem bVars_true (b : Buckets) (l : Nat) : bVars b true l = b.fVars.getD l [] := rfl

theorem bVars_false (b : Buckets) (l : Nat) : bVars b false l = b.gVars.getD l [] := rfl

theorem bIdxs_empty (N : Nat) (role : Bool) (l : Nat) :
    bIdxs (Buckets.empty N) role l = [] := by
  cases role <;> simp [bIdxs, Buckets.empty, getD_replicate_nil]

theorem bVars_empty (N : Nat) (role : Bool) (l : Nat) :
    bVars (Buckets.empty N) role l = [] := by
  cases role <;> simp [bVars, Buckets.empty, getD_replicate_nil]

theorem getD_reverse {α : Type} (L : List α) (l : Nat) (d : α) (h : l < L.length) :
    L.reverse.getD l d = L.getD (L.length - 1 - l) d := by
  have h1 : l < L.reverse.length := by simpa using h
  have h2 : L.length - 1 - l < L.length := by omega
  rw [List.getD_eq_getElem _ _ h1, List.getD_eq_getElem _ _ h2]
  exact List.getElem_reverse _

theorem zip_eq_range_map {α β : Type} (dx : α) (dy : β) (X : List α) (Y : List β) (N : Nat)
    (hX : X.length = N) (hY : Y.length = N) :
    X.zip Y = (List.range N).map (fun m => (X.getD m dx, Y.getD m dy)) := by
  have hZ : (X.zip Y).length = N := by simp [List.length_zip, hX, hY]
  apply List.ext_getElem (by simp [hZ])
  intro i h1 h2
  have hiN : i < N := by rw [hZ] at h1; exact h1
  rw [List.getElem_zip, List.getElem_map, List.getElem_range]
  rw [List.getD_eq_getElem _ _ (by omega), List.getD_eq_getElem _ _ (by omega)]

/-- Every variable reaching a successful bucket build parses under `LAYER_RE`
to a `(layer, role)` pair with `layer < num_layers`: none is silently
dropped. -/
theorem buildVarBuckets_ok_parse :
    ∀ (vs : List TfVar) (N i : Nat) (st bk : Buckets),
      buildVarBuckets N i st vs = .ok bk →
      ∀ v ∈ vs, ∃ lr : Nat × Bool, parseVar v = .ok lr ∧ lr.1 < N := by
  intro vs
  induction vs with
  | nil =>
    intro N i st bk _ v hv
    cases hv
  | cons v vs ih =>
    intro N i st bk h w hw
    simp only [buildVarBuckets] at h
    cases hp : parseVar v with
    | error e => rw [hp] at h; cases h
    | ok lr =>
      rw [hp] at h
      simp only [except_bind_ok] at h
      split at h
      · rename_i hlt
        rcases List.mem_cons.mp hw with rfl | hmem
        · exact ⟨lr, hp, hlt⟩
        · exact ih N (i + 1) _ bk h w hmem
      · cases h

/-- The bucket of `(layer l, role)` holds exactly the flat positions whose
variable's name parses to `(l, role)`, offset by the running index. -/
theorem bucketSpecIdxs_mem_iff (role : Bool) (l : Nat) :
    ∀ (vs : List TfVar) (i j : Nat),
      j ∈ bucketSpecIdxs role l i vs ↔
      ∃ k, k < vs.length ∧ j = i + k ∧
        parseVar (vs.getD k ⟨"", .const 0⟩) = .ok (l, role) := by
  intro vs
  induction vs with
  | nil =>
    intro i j
    simp [bucketSpecIdxs]
  | cons v vs ih =>
    intro i j
    constructor
    · intro hj
      cases hp : parseVar v with
      | ok lr =>
        rw [bucketSpecIdxs_cons_ok hp] at hj
        by_cases hlr : lr = (l, role)
        · rw [if_pos hlr] at hj
          rcases List.mem_cons.mp hj with h0 | hrest
          · exact ⟨0, by simp, by omega, by simpa [hlr] using hp⟩
          · obtain ⟨k, hk, hjk, hpk⟩ := (ih (i + 1) j).mp hrest
            exact ⟨k + 1, by simpa using Nat.succ_lt_succ hk, by omega,
              by simpa [List.getD_cons_succ] using hpk⟩
        · rw [if_neg hlr] at hj
          obtain ⟨k, hk, hjk, hpk⟩ := (ih (i + 1) j).mp hj
          exact ⟨k + 1, by simpa using Nat.succ_lt_succ hk, by omega,
            by simpa [List.getD_cons_succ] using hpk⟩
      | error e =>
        rw [bucketSpecIdxs_cons_err hp] at hj
        obtain ⟨k, hk, hjk, hpk⟩ := (ih (i + 1) j).mp hj
        exact ⟨k + 1, by simpa using Nat.succ_lt_succ hk, by omega,
          by simpa [List.getD_cons_succ] using hpk⟩
    · rintro ⟨k, hk, hjk, hpk⟩
      cases k with
      | zero =>
        have hp : parseVar v = .ok (l, role) := by simpa using hpk
        rw [bucketSpecIdxs_cons_ok hp, if_pos rfl]
        simp [hjk]
      | succ k =>
        have hmem : j ∈ bucketSpecIdxs role l (i + 1) vs :=
          (ih (i + 1) j).mpr ⟨k, by simpa using hk, by omega,
            by simpa [List.getD_cons_succ] using hpk⟩
        cases hp : parseVar v with
        | ok lr =>
          rw [bucketSpecIdxs_cons_ok hp]
          by_cases hlr : lr = (l, role)
          · rw [if_pos hlr]
            exact List.mem_cons_of_mem _ hmem
          · rw [if_neg hlr]
            exact hmem
        | error e =>
          rw [bucketSpecIdxs_cons_err hp]
          exact hmem

/-- Reading the scattered variable-gradient list back: after a successful
bucket build and backward loop, position `k` of bucket `(role, l)` holds the
`k`-th gradient of the `l`-th entry of the matching per-layer gradient lists,
restored to flat-layer order by the final `reverse`. -/
theorem scatter_readback_main
    {N : Nat} {vars : List TfVar} {bk : Buckets} {st : LoopSt}
    {fR gR : List SubFn} {fSide gSide : List Expr} {ys gradYs : Expr × Expr}
    (hbk : buildVarBuckets N 0 (Buckets.empty N) vars = .ok bk)
    (hloop : backwardLoop fR gR bk.fVars.reverse bk.gVars.reverse fSide gSide
      N 0 (LoopSt.init ys gradYs) = .ok st) :
    ∀ (role : Bool) (l : Nat), l < N → ∀ (k : Nat), k < (bIdxs bk role l).length →
      (scatterWrites (List.replicate vars.length none)
          ((bk.fIdxs.zip st.fVarGrads.reverse) ++ (bk.gIdxs.zip st.gVarGrads.reverse))).getD
        ((bIdxs bk role l).getD k 0) none =
      some (((if role then st.fVarGrads.reverse else st.gVarGrads.reverse).getD l
        []).getD k (.const 0)) := by
  obtain ⟨hfI, hgI, hfV, hgV, hchar0, hvlen0⟩ :=
    buildVarBuckets_char vars N 0 (Buckets.empty N) bk (by simp [Buckets.empty])
      (by simp [Buckets.empty]) (by simp [Buckets.empty]) (by simp [Buckets.empty]) hbk
  have hchar : ∀ (role : Bool) (l : Nat), bIdxs bk role l = bucketSpecIdxs role l 0 vars := by
    intro role l
    rw [hchar0 role l, bIdxs_empty]
    exact List.nil_append _
  have hvlen : ∀ (role : Bool) (l : Nat),
      (bVars bk role l).length = (bucketSpecIdxs role l 0 vars).length := by
    intro role l
    have h := hvlen0 role l
    rw [bVars_empty] at h
    simpa using h
  obtain ⟨nF, nG, nFS, nGS, e1, e2, e3, e4, lF, lG, lFS, lGS, jF, jG, jFS, jGS⟩ :=
    backwardLoop_ok_shape fR gR bk.fVars.reverse bk.gVars.reverse fSide gSide
      N 0 (LoopSt.init ys gradYs) st hloop
  have eF : st.fVarGrads = nF := by simpa [LoopSt.init] using e1
  have eG : st.gVarGrads = nG := by simpa [LoopSt.init] using e2
  have hFlen : st.fVarGrads.length = N := by rw [eF]; exact lF
  have hGlen : st.gVarGrads.length = N := by rw [eG]; exact lG
  have hlenF : ∀ (m : Nat), m < N →
      (st.fVarGrads.reverse.getD m []).length = (bucketSpecIdxs true m 0 vars).length := by
    intro m hm
    have h1 : st.fVarGrads.reverse.getD m [] = nF.getD (N - 1 - m) [] := by
      rw [getD_reverse _ _ _ (by rw [hFlen]; omega), hFlen, eF]
    have h2 := jF (N - 1 - m) (by omega)
    rw [Nat.zero_add] at h2
    have h3 : bk.fVars.reverse.getD (N - 1 - m) [] = bVars bk true m := by
      rw [getD_reverse _ _ _ (by rw [hfV]; omega), hfV, bVars_true]
      congr 1
      omega
    rw [h1, h2, h3, hvlen]
  have hlenG : ∀ (m : Nat), m < N →
      (st.gVarGrads.reverse.getD m []).length = (bucketSpecIdxs false m 0 vars).length := by
    intro m hm
    have h1 : st.gVarGrads.reverse.getD m [] = nG.getD (N - 1 - m) [] := by
      rw [getD_reverse _ _ _ (by rw [hGlen]; omega), hGlen, eG]
    have h2 := jG (N - 1 - m) (by omega)
    rw [Nat.zero_add] at h2
    have h3 : bk.gVars.reverse.getD (N - 1 - m) [] = bVars bk false m := by
      rw [getD_reverse _ _ _ (by rw [hgV]; omega), hgV, bVars_false]
      congr 1
      omega
    rw [h1, h2, h3, hvlen]
  have hwdesc :
      (bk.fIdxs.zip st.fVarGrads.reverse) ++ (bk.gIdxs.zip st.gVarGrads.reverse) =
      (List.range N).map (fun m => (bucketSpecIdxs true m 0 vars,
          st.fVarGrads.reverse.getD m [])) ++
      (List.range N).map (fun m => (bucketSpecIdxs false m 0 vars,
          st.gVarGrads.reverse.getD m [])) := by
    rw [zip_eq_range_map [] [] bk.fIdxs st.fVarGrads.reverse N hfI (by simp [hFlen]),
        zip_eq_range_map [] [] bk.gIdxs st.gVarGrads.reverse N hgI (by simp [hGlen])]
    congr 1
    · apply List.map_congr_left
      intro m _
      rw [← bIdxs_true, hchar]
    · apply List.map_congr_left
      intro m _
      rw [← bIdxs_false, hchar]
  have hpair : List.Pairwise (fun p q => ∀ x ∈ p.1, x ∉ q.1)
      ((List.range N).map (fun m => (bucketSpecIdxs true m 0 vars,
          st.fVarGrads.reverse.getD m [])) ++
       (List.range N).map (fun m => (bucketSpecIdxs false m 0 vars,
          st.gVarGrads.reverse.getD m []))) := by
    rw [List.pairwise_append]
    refine ⟨?_, ?_, ?_⟩
    · rw [List.pairwise_map]
      refine List.Pairwise.imp ?_ (List.pairwise_lt_range N)
      intro a b hab x hx
      refine bucketSpecIdxs_disjoint ?_ vars 0 x hx
      intro hco
      have := congrArg Prod.fst hco
      simp at this
      omega
    · rw [List.pairwise_map]
      refine List.Pairwise.imp ?_ (List.pairwise_lt_range N)
      intro a b hab x hx
      refine bucketSpecIdxs_disjoint ?_ vars 0 x hx
      intro hco
      have := congrArg Prod.fst hco
      simp at this
      omega
    · intro a ha b hb
      obtain ⟨ma, _, rfl⟩ := List.mem_map.mp ha
      obtain ⟨mb, _, rfl⟩ := List.mem_map.mp hb
      intro x hx
      exact bucketSpecIdxs_disjoint (by simp) vars 0 x hx
  have hprops : ∀ p ∈
      (List.range N).map (fun m => (bucketSpecIdxs true m 0 vars,
          st.fVarGrads.reverse.getD m [])) ++
      (List.range N).map (fun m => (bucketSpecIdxs false m 0 vars,
          st.gVarGrads.reverse.getD m [])),
      p.1.Nodup ∧ p.1.length = p.2.length ∧
      ∀ x ∈ p.1, x < (List.replicate vars.length (none : Option Expr)).length := by
    intro p hp
    rcases List.mem_append.mp hp with hp1 | hp2
    · obtain ⟨m, hm, rfl⟩ := List.mem_map.mp hp1
      have hmN : m < N := List.mem_range.mp hm
      refine ⟨bucketSpecIdxs_nodup true m vars 0, (hlenF m hmN).symm, ?_⟩
      intro x hx
      have hb := (bucketSpecIdxs_bounds true m vars 0 x hx).2
      rw [List.length_replicate]
      omega
    · obtain ⟨m, hm, rfl⟩ := List.mem_map.mp hp2
      have hmN : m < N := List.mem_range.mp hm
      refine ⟨bucketSpecIdxs_nodup false m vars 0, (hlenG m hmN).symm, ?_⟩
      intro x hx
      have hb := (bucketSpecIdxs_bounds false m vars 0 x hx).2
      rw [List.length_replicate]
      omega
  intro role l hl k hk
  rw [hchar] at hk
  rw [hwdesc, hchar]
  cases role with
  | true =>
    have hw : (bucketSpecIdxs true l 0 vars, st.fVarGrads.reverse.getD l []) ∈
        (List.range N).map (fun m => (bucketSpecIdxs true m 0 vars,
            st.fVarGrads.reverse.getD m [])) ++
        (List.range N).map (fun m => (bucketSpecIdxs false m 0 vars,
            st.gVarGrads.reverse.getD m [])) :=
      List.mem_append_left _ (List.mem_map_of_mem _ (List.mem_range.mpr hl))
    exact scatterWrites_readback _ _ _ hw hpair hprops k hk
  | false =>
    have hw : (bucketSpecIdxs false l 0 vars, st.gVarGrads.reverse.getD l []) ∈
        (List.range N).map (fun m => (bucketSpecIdxs true m 0 vars,
            st.fVarGrads.reverse.getD m [])) ++
        (List.range N).map (fun m => (bucketSpecIdxs false m 0 vars,
            st.gVarGrads.reverse.getD m [])) :=
      List.mem_append_right _ (List.mem_map_of_mem _ (List.mem_range.mpr hl))
    exact scatterWrites_readback _ _ _ hw hpair hprops k hk

/-- `customGradFn` written as the explicit chain of its stages (definitional:
the `do` block is exactly this bind chain). -/
theorem customGradFn_decomp (ctx : BlockCtx) (inputs : List Expr) (vars : List TfVar)
    (ys gradYs : Expr × Expr) :
    customGradFn ctx inputs vars ys gradYs =
      (if (inputs.drop 2).length = ctx.fSideInput.length + ctx.gSideInput.length then
        buildSideIdxsAux ctx.fSideInput ctx.gSideInput 0 (inputs.drop 2)
          (List.replicate ctx.fSideInput.length none,
           List.replicate ctx.gSideInput.length none) >>= fun idxs =>
        buildVarBuckets ctx.numLayers 0 (Buckets.empty ctx.numLayers) vars >>= fun bk =>
        backwardLoop ctx.fs.reverse ctx.gs.reverse bk.fVars.reverse bk.gVars.reverse
          ctx.fSideInput ctx.gSideInput ctx.numLayers 0 (LoopSt.init ys gradYs) >>= fun st =>
        scatterSide (List.replicate (inputs.drop 2).length none) idxs.1
          (accGrads (st.fSideGrads.map (List.map some))) >>= fun sg1 =>
        scatterSide sg1 idxs.2 (accGrads (st.gSideGrads.map (List.map some))) >>= fun sg =>
        .ok ⟨[some st.gradYs.1, some st.gradYs.2] ++ sg,
             scatterWrites (List.replicate vars.length none)
               ((bk.fIdxs.zip st.fVarGrads.reverse) ++ (bk.gIdxs.zip st.gVarGrads.reverse)),
             ctx.fs.reverse, ctx.gs.reverse⟩
      else .error .assertionError) := rfl

/-! Theorems for the claims. -/

/-- C4.  Side-input gradient accumulation.  First conjunct (`_acc_grads`
itself, as used at special_fn.py line 802-804): every accumulated entry
equals the elementwise sum of the per-layer contributions, a layer's missing
(`None`) contribution counting as zero and raising nothing.  Second conjunct
(the spec's concrete scenario): on a 3-layer block sharing one g-side input
with `g(y1, s) = s`, the block's gradient function succeeds and the gradient
returned for the side input is the elementwise sum of the `grad_y2` seeds
entering the three backward layers (`c4Seed 0`, `c4Seed 1`, `c4Seed 2`). -/
theorem side_input_accumulation (env : Nat → Int) :
    (∀ (lls : List (List (Option Expr))) (j : Nat),
      evalO env ((accGrads lls).getD j none) = sumContrib env ((pyZip lls).getD j [])) ∧
    ∃ r, customGradFn c4ctx [.leaf 0, .leaf 1, .leaf 2] []
        (.leaf 10, .leaf 11) (.leaf 12, .leaf 13) = .ok r ∧
      ∃ a, r.gradInputs.getD 2 none = some a ∧
        eval env a = eval env (c4Seed 0) + eval env (c4Seed 1) + eval env (c4Seed 2) := by
  refine ⟨fun lls j => accGrads_column_eval env lls j, ?_⟩
  have hc : customGradFn c4ctx [.leaf 0, .leaf 1, .leaf 2] []
      (.leaf 10, .leaf 11) (.leaf 12, .leaf 13) =
      .ok ⟨[some (c4St 3).gradYs.1, some (c4St 3).gradYs.2,
            some (.add (.add (c4St 0).gradYs.2 (c4St 1).gradYs.2) (c4St 2).gradYs.2)],
           [], [idF, idF, idF], [gPassSide, gPassSide, gPassSide]⟩ := by
    rw [customGradFn_decomp]
    rw [if_pos (by decide)]
    rw [show buildSideIdxsAux c4ctx.fSideInput c4ctx.gSideInput 0
        (List.drop 2 [Expr.leaf 0, .leaf 1, .leaf 2])
        (List.replicate c4ctx.fSideInput.length none,
         List.replicate c4ctx.gSideInput.length none) =
      .ok ([], [some 0]) from rfl]
    rw [except_bind_ok]
    rw [show buildVarBuckets c4ctx.numLayers 0 (Buckets.empty c4ctx.numLayers) [] =
      .ok (Buckets.empty 3) from rfl]
    rw [except_bind_ok]
    rw [show backwardLoop c4ctx.fs.reverse c4ctx.gs.reverse
        (Buckets.empty 3).fVars.reverse (Buckets.empty 3).gVars.reverse
        c4ctx.fSideInput c4ctx.gSideInput c4ctx.numLayers 0
        (LoopSt.init (.leaf 10, .leaf 11) (.leaf 12, .leaf 13)) =
      .ok (c4St 3) from c4Loop_three]
    rw [except_bind_ok]
    rw [show scatterSide
        (List.replicate (List.drop 2 [Expr.leaf 0, .leaf 1, .leaf 2]).length none)
        (([] : List (Option Nat)), ([some 0] : List (Option Nat))).1
        (accGrads ((c4St 3).fSideGrads.map (List.map some))) =
      .ok (List.replicate (List.drop 2 [Expr.leaf 0, .leaf 1, .leaf 2]).length none)
      from rfl]
    rw [except_bind_ok]
    rw [show scatterSide
        (List.replicate (List.drop 2 [Expr.leaf 0, .leaf 1, .leaf 2]).length none)
        (([] : List (Option Nat)), ([some 0] : List (Option Nat))).2
        (accGrads ((c4St 3).gSideGrads.map (List.map some))) =
      .ok [some (.add (.add (c4St 0).gradYs.2 (c4St 1).gradYs.2) (c4St 2).gradYs.2)]
      from rfl]
    rw [except_bind_ok]
    rfl
  refine ⟨_, hc, _, rfl, ?_⟩
  have hs1 : c4Seed 1 = (c4St 1).gradYs.2 := by
    unfold c4Seed
    rw [c4Loop_one]
  have hs2 : c4Seed 2 = (c4St 2).gradYs.2 := by
    unfold c4Seed
    rw [c4Loop_two]
  rw [show c4Seed 0 = (c4St 0).gradYs.2 from rfl, hs1, hs2]
  simp [eval]



/-- C2.  Round-trip identity of the reversible layer: if `f` and `g` are pure
functions of their inputs (their output's value is a function of the values of
their argument and side inputs — the source's stated limitation that `f` and
`g` must not close over other tensors), then for any inputs `(x1, x2)` the
values reconstructed by `_rev_layer_backward` from the outputs of
`_rev_layer_forward` are exactly `(x1, x2)` under exact arithmetic. -/
theorem rev_layer_roundtrip (f g : SubFn) (fsem gsem : Int → List Int → Int)
    (hf : ∀ (env : Nat → Int) (x : Expr) (side : List Expr),
      eval env (f x side) = fsem (eval env x) (side.map (eval env)))
    (hg : ∀ (env : Nat → Int) (y : Expr) (side : List Expr),
      eval env (g y side) = gsem (eval env y) (side.map (eval env)))
    (x1 x2 : Expr) (fSideInput gSideInput fVars gVars : List Expr)
    (gradYs : Expr × Expr) (out : LayerBack)
    (hok : revLayerBackward (revLayerForward (x1, x2) f g fSideInput gSideInput)
      gradYs f g fVars fSideInput gVars gSideInput = .ok out)
    (env : Nat → Int) :
    eval env out.ys.1 = eval env x1 ∧ eval env out.ys.2 = eval env x2 := by
  obtain ⟨h2, h1⟩ := revLayerBackward_ok_ys hok
  have hmap : ∀ side : List Expr,
      (side.map Expr.stopGrad).map (eval env) = side.map (eval env) := by
    intro side
    simp [List.map_map, Function.comp, eval_stopGrad]
  have hx2 : eval env out.ys.2 = eval env x2 := by
    rw [h2]
    simp only [revLayerForward, eval, hg, hmap, eval_stopGrad]
    ring
  refine ⟨?_, hx2⟩
  rw [h1]
  simp only [revLayerForward, eval, hf, hg, hmap, eval_stopGrad]
  ring_nf

/-- C2 witness: concrete shift couplings `f(x) = x + 1`, `g(y) = y + 1` on
concrete inputs; the backward pass succeeds and reconstructs the inputs
exactly. -/
theorem rev_layer_roundtrip_witness :
    ∃ out, revLayerBackward
        (revLayerForward (.leaf 0, .leaf 1) (fun x _ => .add x (.const 1))
          (fun y _ => .add y (.const 1)) [] [])
        (.leaf 2, .leaf 3) (fun x _ => .add x (.const 1)) (fun y _ => .add y (.const 1))
        [] [] [] [] = .ok out ∧
      ∀ env : Nat → Int,
        eval env out.ys.1 = eval env (.leaf 0) ∧ eval env out.ys.2 = eval env (.leaf 1) := by
  obtain ⟨out, hout⟩ := exceptIsOk_exists (e :=
    revLayerBackward
      (revLayerForward (.leaf 0, .leaf 1) (fun x _ => .add x (.const 1))
        (fun y _ => .add y (.const 1)) [] [])
      (.leaf 2, .leaf 3) (fun x _ => .add x (.const 1)) (fun y _ => .add y (.const 1))
      [] [] [] []) (by decide)
  refine ⟨out, hout, fun env => ?_⟩
  exact rev_layer_roundtrip (fun x _ => .add x (.const 1)) (fun y _ => .add y (.const 1))
    (fun v _ => v + 1) (fun v _ => v + 1) (fun _ _ _ => rfl) (fun _ _ _ => rfl)
    (.leaf 0) (.leaf 1) [] [] [] [] (.leaf 2, .leaf 3) out hout env

/-- C3.  Identity coupling on a block with `num_layers = 1`: with both
sub-functions the constant-zero function (`zeroF`, the graph-connected
`f(x) = x - x`; a zero disconnected from its input would make the backward
pass raise, see `zeroF`), the forward pass of the block returns values
`y1 = x1`, `y2 = x2`, and for arbitrary incoming output gradients
`(gy1, gy2) = (leaf 2, leaf 3)` (the environment makes their values
arbitrary) the installed gradient function returns `grad_x1 = gy1` and
`grad_x2 = gy2` exactly, with no variable gradients. -/
theorem identity_coupling_single_layer (env : Nat → Int) :
    ∃ y, revBlockForward (.leaf 0) (.leaf 1) [zeroF] [zeroF] 1 [] [] = .ok y ∧
      eval env y.1 = eval env (.leaf 0) ∧ eval env y.2 = eval env (.leaf 1) ∧
      ∃ r, customGradFn ⟨1, [zeroF], [zeroF], [], []⟩ [.leaf 0, .leaf 1] [] y
          (.leaf 2, .leaf 3) = .ok r ∧
        ∃ gx1 gx2, r.gradInputs = [some gx1, some gx2] ∧ r.gradVars = [] ∧
          eval env gx1 = eval env (.leaf 2) ∧ eval env gx2 = eval env (.leaf 3) := by
  refine ⟨_, rfl, ?_, ?_, _, rfl, _, _, rfl, rfl, ?_, ?_⟩
  · simp [eval, zeroF]
  · simp [eval, zeroF]
  · simp [eval]
  · simp [eval]

/-- C7.  A parameter whose identity string does not match
`.*revlayer_([0-9]*)/([fg])/.*` makes the block's gradient function fail
fatally at backward-graph-construction time (the failed `LAYER_RE.match`
returns `None` and the following `.group` access raises — the fatal
configuration error of the spec's taxonomy), and in particular it can never
return a gradient list that silently drops that parameter. -/
theorem revblock_bad_var_name_fatal (ctx : BlockCtx) (inputs : List Expr)
    (vars : List TfVar) (ys gradYs : Expr × Expr) (v : TfVar) (hv : v ∈ vars)
    (hbad : matchLayerRE v.name.toList = none) :
    ∀ r, customGradFn ctx inputs vars ys gradYs ≠ .ok r := by
  intro r h
  simp only [customGradFn] at h
  split at h
  · cases hS : buildSideIdxsAux ctx.fSideInput ctx.gSideInput 0 (inputs.drop 2)
        (List.replicate ctx.fSideInput.length none, List.replicate ctx.gSideInput.length none) with
    | error e => rw [hS] at h; simp only [except_bind_error] at h; cases h
    | ok idxs =>
      rw [hS] at h
      simp only [except_bind_ok] at h
      cases hB : buildVarBuckets ctx.numLayers 0 (Buckets.empty ctx.numLayers) vars with
      | error e => rw [hB] at h; simp only [except_bind_error] at h; cases h
      | ok bk =>
        exact buildVarBuckets_badname hbad vars hv ctx.numLayers 0
          (Buckets.empty ctx.numLayers) bk hB
  · cases h

/-- C7 witness: a single variable named like an ordinary dense-layer kernel
(no `revlayer_<n>/<f|g>/` segment) makes the gradient function of a 1-layer
block fail rather than return. -/
theorem revblock_bad_var_name_fatal_witness :
    (customGradFn ⟨1, [idF], [idF], [], []⟩ [.leaf 0, .leaf 1]
      [{ name := "model/dense/kernel:0", ref := .leaf 5 }]
      (.leaf 10, .leaf 11) (.leaf 12, .leaf 13)).isOk = false := by
  cases hE : customGradFn ⟨1, [idF], [idF], [], []⟩ [.leaf 0, .leaf 1]
      [{ name := "model/dense/kernel:0", ref := .leaf 5 }]
      (.leaf 10, .leaf 11) (.leaf 12, .leaf 13) with
  | error e => rfl
  | ok r =>
    exact absurd hE (revblock_bad_var_name_fatal _ _ _ _ _
      ({ name := "model/dense/kernel:0", ref := .leaf 5 }) (by simp) (by decide) r)

/-- C10.  Frame effect of the backward pass: whenever the installed gradient
function of `rev_block` runs to completion (`is_training=True` is what
installs it), the closure lists `f` and `g` — the caller's own list objects
when `f`/`g` were supplied as lists — are left reversed (`f.reverse()`,
`g.reverse()` are executed in place and never undone), so the caller-visible
element order is inverted. -/
theorem rev_block_mutates_fg_lists (ctx : BlockCtx) (inputs : List Expr)
    (vars : List TfVar) (ys gradYs : Expr × Expr) (r : GradResult)
    (hok : customGradFn ctx inputs vars ys gradYs = .ok r) :
    r.fPost = ctx.fs.reverse ∧ r.gPost = ctx.gs.reverse := by
  simp only [customGradFn] at hok
  split at hok
  · cases hS : buildSideIdxsAux ctx.fSideInput ctx.gSideInput 0 (inputs.drop 2)
        (List.replicate ctx.fSideInput.length none, List.replicate ctx.gSideInput.length none) with
    | error e => rw [hS] at hok; simp only [except_bind_error] at hok; cases hok
    | ok idxs =>
      rw [hS] at hok
      simp only [except_bind_ok] at hok
      cases hB : buildVarBuckets ctx.numLayers 0 (Buckets.empty ctx.numLayers) vars with
      | error e => rw [hB] at hok; simp only [except_bind_error] at hok; cases hok
      | ok bk =>
        rw [hB] at hok
        simp only [except_bind_ok] at hok
        cases hL : backwardLoop ctx.fs.reverse ctx.gs.reverse bk.fVars.reverse bk.gVars.reverse
            ctx.fSideInput ctx.gSideInput ctx.numLayers 0 (LoopSt.init ys gradYs) with
        | error e => rw [hL] at hok; simp only [except_bind_error] at hok; cases hok
        | ok st =>
          rw [hL] at hok
          simp only [except_bind_ok] at hok
          cases h1 : scatterSide (List.replicate (inputs.drop 2).length none) idxs.1
              (accGrads (st.fSideGrads.map (List.map some))) with
          | error e => rw [h1] at hok; simp only [except_bind_error] at hok; cases hok
          | ok sg1 =>
            rw [h1] at hok
            simp only [except_bind_ok] at hok
            cases h2 : scatterSide sg1 idxs.2 (accGrads (st.gSideGrads.map (List.map some))) with
            | error e => rw [h2] at hok; simp only [except_bind_error] at hok; cases hok
            | ok sg2 =>
              rw [h2] at hok
              simp only [except_bind_ok] at hok
              cases hok
              exact ⟨rfl, rfl⟩
  · cases hok

/-- C10 witness: a 2-layer block with two distinguishable `f` entries; after
one successful run of the gradient function the post-state of the `f` list is
the reversal of what the caller supplied — an observable mutation, not the
original order. -/
theorem rev_block_mutates_fg_lists_witness :
    ∃ r, customGradFn ⟨2, [idF, linF 7], [idF, idF], [], []⟩ [.leaf 0, .leaf 1] []
        (.leaf 10, .leaf 11) (.leaf 12, .leaf 13) = .ok r ∧
      r.fPost = [linF 7, idF] ∧ r.fPost ≠ [idF, linF 7] := by
  obtain ⟨r, hr⟩ := exceptIsOk_exists (e :=
    customGradFn ⟨2, [idF, linF 7], [idF, idF], [], []⟩ [.leaf 0, .leaf 1] []
      (.leaf 10, .leaf 11) (.leaf 12, .leaf 13)) (by decide)
  have hrev := (rev_block_mutates_fg_lists _ _ _ _ _ r hr).1
  refine ⟨r, hr, hrev, ?_⟩
  rw [hrev]
  intro h
  have h1 : linF 7 = idF := (List.cons.injEq _ _ _ _).mp h |>.1
  have h2 := congrFun (congrFun h1 (.const 0)) []
  simp [linF, idF] at h2

/-- C5.  With `grad_fn is None`, `_fn_with_custom_grad` returns exactly the
tensors produced by running the forward function on the inputs: no identity
transform is interposed (the identity-`Defun` wrapping happens only in the
other branch), so the engine's default structural differentiation remains in
effect for these outputs. -/
theorem fn_with_custom_grad_none_is_direct {γ : Type} (fn : List Expr → List Expr)
    (inputs trainVars : List Expr) :
    fnWithCustomGrad fn inputs trainVars (none : Option γ) = .ok (fn inputs) := rfl

/-- C6.  The gradient rule installed by `_recompute_grad` ignores the stored
forward outputs entirely and produces, for every seed of output gradients,
exactly the input- and variable-gradients of standard structural
differentiation of one direct call to `fn` — in the embedding `fn` is a pure
graph builder, so the recomputed outputs coincide with the direct call's
outputs and the two differentiations agree definitionally. -/
theorem recompute_grad_matches_direct (fn : List Expr → List Expr)
    (inputs vars storedOutputs outputGrads : List Expr) :
    recomputeGradFn fn inputs vars storedOutputs outputGrads =
      directCallGrads fn inputs vars outputGrads := rfl

/-- C9 counterexample.  A forward function returning zero outputs does not
make `_fn_with_custom_grad` fail: the wrapper has no zero-output (nor static
shape) check and passes the empty output list straight through to the identity
`Defun`, returning normally. -/
theorem fn_with_custom_grad_zero_outputs_no_error :
    fnWithCustomGrad (fun _ => []) [] [] (some ()) = .ok [] := rfl

/-- C9 amended.  `_fn_with_custom_grad` itself never raises: it performs no
validation of the forward outputs (no zero-output check, and `shape_func`
merely forwards `t.get_shape()` of whatever outputs were declared), so every
call returns normally; any failure on degenerate outputs could only come from
the external `Defun` machinery, not from this wrapper. -/
theorem fn_with_custom_grad_never_raises {γ : Type} (fn : List Expr → List Expr)
    (inputs trainVars : List Expr) (gradFn : Option γ) :
    ∃ outs, fnWithCustomGrad fn inputs trainVars gradFn = .ok outs := by
  cases gradFn with
  | none => exact ⟨fn inputs, rfl⟩
  | some _ => exact ⟨(fn inputs).map Expr.ident, rfl⟩

/-- C8.  `rev_block`'s argument normalization, over every call shape: an `f`
list whose length differs from `num_layers` fails the
`assert len(f) == num_layers` whatever `g` is; a `g` list whose length
differs from `num_layers` fails the `assert len(g) == num_layers` whatever
valid `f` (single callable or correct-length list) preceded it; and a single
shared sub-function in either position is replicated `num_layers` times with
no error, whatever valid argument sits in the other position (the fatal
graph-construction failure of the spec's taxonomy is concretely an
`AssertionError`). -/
theorem rev_block_fg_normalization (n : Nat) :
    (∀ l : List SubFn, l.length ≠ n → ∀ g : SubFn ⊕ List SubFn,
      revBlockSetup (.inr l) g n = .error .assertionError) ∧
    (∀ (f : SubFn ⊕ List SubFn) (fs : List SubFn), normalizeFG f n = .ok fs →
      ∀ l : List SubFn, l.length ≠ n →
      revBlockSetup f (.inr l) n = .error .assertionError) ∧
    (∀ (f0 : SubFn) (g : SubFn ⊕ List SubFn) (gs : List SubFn),
      normalizeFG g n = .ok gs →
      revBlockSetup (.inl f0) g n = .ok (List.replicate n f0, gs)) ∧
    (∀ (g0 : SubFn) (f : SubFn ⊕ List SubFn) (fs : List SubFn),
      normalizeFG f n = .ok fs →
      revBlockSetup f (.inl g0) n = .ok (fs, List.replicate n g0)) := by
  refine ⟨?hf, ?hg, ?hrepf, ?hrepg⟩
  · intro l hlen g
    simp [revBlockSetup, normalizeFG, hlen, except_bind_error]
  · intro f fs hf l hlen
    cases f with
    | inl f0 =>
      simp [revBlockSetup, normalizeFG, hlen, except_bind_ok, except_bind_error]
    | inr fl =>
      have hfl : fl.length = n := by
        simp only [normalizeFG] at hf
        split at hf
        · assumption
        · cases hf
      simp [revBlockSetup, normalizeFG, hfl, hlen, except_bind_ok, except_bind_error]
  · intro f0 g gs hg
    simp only [revBlockSetup]
    rw [show normalizeFG (.inl f0) n = .ok (List.replicate n f0) from rfl,
      except_bind_ok, hg, except_bind_ok]
  · intro g0 f fs hf
    simp only [revBlockSetup]
    rw [hf, except_bind_ok,
      show normalizeFG (.inl g0) n = .ok (List.replicate n g0) from rfl, except_bind_ok]

/-- C8 witness, one concrete instance per conjunct at `num_layers = 2`: a
1-element `f` list raises; a 1-element `g` list raises behind a
correct-length `f` list and behind a single `f`; a single `f` (or `g`) is
replicated with no error next to a correct-length list in the other
position. -/
theorem rev_block_fg_normalization_witness :
    revBlockSetup (.inr [idF]) (.inl idF) 2 = .error .assertionError ∧
    revBlockSetup (.inr [idF, zeroF]) (.inr [idF]) 2 = .error .assertionError ∧
    revBlockSetup (.inl idF) (.inr [zeroF]) 2 = .error .assertionError ∧
    revBlockSetup (.inl idF) (.inr [zeroF, zeroF]) 2 =
      .ok ([idF, idF], [zeroF, zeroF]) ∧
    revBlockSetup (.inr [idF, idF]) (.inl zeroF) 2 =
      .ok ([idF, idF], [zeroF, zeroF]) := by
  refine ⟨?_, ?_, ?_, ?_, ?_⟩
  · exact (rev_block_fg_normalization 2).1 [idF] (by decide) (.inl idF)
  · exact (rev_block_fg_normalization 2).2.1 (.inr [idF, zeroF]) [idF, zeroF] rfl
      [idF] (by decide)
  · exact (rev_block_fg_normalization 2).2.1 (.inl idF) [idF, idF] rfl
      [zeroF] (by decide)
  · exact (rev_block_fg_normalization 2).2.2.1 idF (.inr [zeroF, zeroF])
      [zeroF, zeroF] rfl
  · exact (rev_block_fg_normalization 2).2.2.2 zeroF (.inr [idF, idF])
      [idF, idF] rfl

/-- C1.  Gradient-count and ordering invariant of the gradient function
`rev_block` installs.  Whenever `custom_grad_fn` returns, (1) it returns
exactly `2 + len(f_side_input) + len(g_side_input)` input-gradients and
(2) exactly as many variable-gradients as variables were passed in;
(3) every variable passed in parses to a `(layer, role)` bucket with
`layer < num_layers` (none is dropped); and (4) under the flat layout the
wrapper passes (`inputs[2:] = f_side_input + g_side_input`, pairwise-distinct
tensors) and `num_layers ≥ 1`, ordering is preserved exactly: the
input-gradient list is `grad_x1 :: grad_x2 ::` the accumulated `f`-side
gradients in `f_side_input` order followed by the accumulated `g`-side
gradients in `g_side_input` order, and the variable-gradient at flat position
`i` — where `i` is the `k`-th recorded position of bucket `(role, l)`, the
bucket holding precisely the flat positions whose variable parses to
`(l, role)` in ascending order — is the `k`-th gradient computed for layer
`l`'s variables of that role. -/
theorem revblock_grad_count_order (ctx : BlockCtx) (inputs : List Expr)
    (vars : List TfVar) (ys gradYs : Expr × Expr) (r : GradResult)
    (hok : customGradFn ctx inputs vars ys gradYs = .ok r) :
    r.gradInputs.length = 2 + ctx.fSideInput.length + ctx.gSideInput.length ∧
    r.gradVars.length = vars.length ∧
    (∀ v ∈ vars, ∃ lr : Nat × Bool, parseVar v = .ok lr ∧ lr.1 < ctx.numLayers) ∧
    (inputs.drop 2 = ctx.fSideInput ++ ctx.gSideInput →
     (ctx.fSideInput ++ ctx.gSideInput).Nodup →
     1 ≤ ctx.numLayers →
     ∃ bk st,
       buildVarBuckets ctx.numLayers 0 (Buckets.empty ctx.numLayers) vars = .ok bk ∧
       backwardLoop ctx.fs.reverse ctx.gs.reverse bk.fVars.reverse bk.gVars.reverse
         ctx.fSideInput ctx.gSideInput ctx.numLayers 0 (LoopSt.init ys gradYs) = .ok st ∧
       (accGrads (st.fSideGrads.map (List.map some))).length = ctx.fSideInput.length ∧
       (accGrads (st.gSideGrads.map (List.map some))).length = ctx.gSideInput.length ∧
       r.gradInputs = some st.gradYs.1 :: some st.gradYs.2 ::
         (accGrads (st.fSideGrads.map (List.map some)) ++
          accGrads (st.gSideGrads.map (List.map some))) ∧
       (∀ (role : Bool) (l : Nat), bIdxs bk role l = bucketSpecIdxs role l 0 vars) ∧
       (∀ (role : Bool) (l : Nat), l < ctx.numLayers →
         ∀ k, k < (bIdxs bk role l).length →
         r.gradVars.getD ((bIdxs bk role l).getD k 0) none =
           some (((if role then st.fVarGrads.reverse else st.gVarGrads.reverse).getD l
             []).getD k (.const 0)))) := by
  simp only [customGradFn] at hok
  split at hok
  · rename_i hassert
    cases hS : buildSideIdxsAux ctx.fSideInput ctx.gSideInput 0 (inputs.drop 2)
        (List.replicate ctx.fSideInput.length none, List.replicate ctx.gSideInput.length none) with
    | error e => rw [hS] at hok; simp only [except_bind_error] at hok; cases hok
    | ok idxs =>
      rw [hS] at hok
      simp only [except_bind_ok] at hok
      cases hB : buildVarBuckets ctx.numLayers 0 (Buckets.empty ctx.numLayers) vars with
      | error e => rw [hB] at hok; simp only [except_bind_error] at hok; cases hok
      | ok bk =>
        rw [hB] at hok
        simp only [except_bind_ok] at hok
        cases hL : backwardLoop ctx.fs.reverse ctx.gs.reverse bk.fVars.reverse bk.gVars.reverse
            ctx.fSideInput ctx.gSideInput ctx.numLayers 0 (LoopSt.init ys gradYs) with
        | error e => rw [hL] at hok; simp only [except_bind_error] at hok; cases hok
        | ok st =>
          rw [hL] at hok
          simp only [except_bind_ok] at hok
          cases h1 : scatterSide (List.replicate (inputs.drop 2).length none) idxs.1
              (accGrads (st.fSideGrads.map (List.map some))) with
          | error e => rw [h1] at hok; simp only [except_bind_error] at hok; cases hok
          | ok sg1 =>
            rw [h1] at hok
            simp only [except_bind_ok] at hok
            cases h2 : scatterSide sg1 idxs.2 (accGrads (st.gSideGrads.map (List.map some))) with
            | error e => rw [h2] at hok; simp only [except_bind_error] at hok; cases hok
            | ok sg2 =>
              rw [h2] at hok
              simp only [except_bind_ok] at hok
              cases hok
              refine ⟨?_, ?_, ?_, ?_⟩
              · have hsg2len : sg2.length =
                    ctx.fSideInput.length + ctx.gSideInput.length := by
                  rw [scatterSide_ok_length _ _ _ _ h2, scatterSide_ok_length _ _ _ _ h1,
                    List.length_replicate]
                  exact hassert
                show ([some st.gradYs.1, some st.gradYs.2] ++ sg2).length = _
                simp only [List.length_append, List.length_cons, List.length_nil]
                omega
              · show (scatterWrites (List.replicate vars.length none)
                    ((bk.fIdxs.zip st.fVarGrads.reverse) ++
                     (bk.gIdxs.zip st.gVarGrads.reverse))).length = vars.length
                rw [scatterWrites_length, List.length_replicate]
              · exact buildVarBuckets_ok_parse vars ctx.numLayers 0 _ bk hB
              · intro hlay hnd hN
                rw [hlay] at hS
                rw [buildSideIdxs_char _ _ hnd] at hS
                injection hS with hS2
                subst hS2
                obtain ⟨nF, nG, nFS, nGS, e1, e2, e3, e4, lF, lG, lFS, lGS,
                    jF, jG, jFS, jGS⟩ :=
                  backwardLoop_ok_shape ctx.fs.reverse ctx.gs.reverse bk.fVars.reverse
                    bk.gVars.reverse ctx.fSideInput ctx.gSideInput ctx.numLayers 0
                    (LoopSt.init ys gradYs) st hL
                have eFS : st.fSideGrads = nFS := by simpa [LoopSt.init] using e3
                have eGS : st.gSideGrads = nGS := by simpa [LoopSt.init] using e4
                have haccF : (accGrads (st.fSideGrads.map (List.map some))).length =
                    ctx.fSideInput.length := by
                  rw [accGrads_length]
                  refine minLen_of_all_eq _ _ ?_ ?_
                  · rw [eFS]
                    intro hnil
                    rw [List.map_eq_nil_iff.mp hnil] at lFS
                    simp at lFS
                    omega
                  · intro x hx
                    rw [eFS] at hx
                    obtain ⟨col, hcol, rfl⟩ := List.mem_map.mp hx
                    rw [List.length_map]
                    obtain ⟨j, hj, hje⟩ := List.getElem_of_mem hcol
                    have hjl := jFS j (by omega)
                    rw [List.getD_eq_getElem _ _ hj, hje] at hjl
                    exact hjl
                have haccG : (accGrads (st.gSideGrads.map (List.map some))).length =
                    ctx.gSideInput.length := by
                  rw [accGrads_length]
                  refine minLen_of_all_eq _ _ ?_ ?_
                  · rw [eGS]
                    intro hnil
                    rw [List.map_eq_nil_iff.mp hnil] at lGS
                    simp at lGS
                    omega
                  · intro x hx
                    rw [eGS] at hx
                    obtain ⟨col, hcol, rfl⟩ := List.mem_map.mp hx
                    rw [List.length_map]
                    obtain ⟨j, hj, hje⟩ := List.getElem_of_mem hcol
                    have hjl := jGS j (by omega)
                    rw [List.getD_eq_getElem _ _ hj, hje] at hjl
                    exact hjl
                have hsg1 : sg1 = accGrads (st.fSideGrads.map (List.map some)) ++
                    List.replicate ctx.gSideInput.length none := by
                  rw [hassert] at h1
                  rw [scatterSide_range' ctx.fSideInput.length 0
                    (accGrads (st.fSideGrads.map (List.map some)))
                    (List.replicate (ctx.fSideInput.length + ctx.gSideInput.length) none)
                    haccF (by simp)] at h1
                  injection h1 with h1e
                  rw [← h1e]
                  simp [List.drop_replicate]
                have hsg2 : sg2 = accGrads (st.fSideGrads.map (List.map some)) ++
                    accGrads (st.gSideGrads.map (List.map some)) := by
                  rw [hsg1] at h2
                  rw [scatterSide_range' ctx.gSideInput.length ctx.fSideInput.length
                    (accGrads (st.gSideGrads.map (List.map some))) _ haccG
                    (by simp [List.length_append, List.length_replicate, haccF])] at h2
                  injection h2 with h2e
                  rw [← h2e]
                  rw [List.take_left' haccF]
                  rw [List.drop_eq_nil_of_le
                    (by simp [List.length_append, List.length_replicate, haccF])]
                  simp
                have hcharAll : ∀ (role : Bool) (l : Nat),
                    bIdxs bk role l = bucketSpecIdxs role l 0 vars := by
                  obtain ⟨_, _, _, _, hchar0, _⟩ :=
                    buildVarBuckets_char vars ctx.numLayers 0
                      (Buckets.empty ctx.numLayers) bk (by simp [Buckets.empty])
                      (by simp [Buckets.empty]) (by simp [Buckets.empty])
                      (by simp [Buckets.empty]) hB
                  intro role l
                  rw [hchar0 role l, bIdxs_empty]
                  exact List.nil_append _
                refine ⟨bk, st, rfl, hL, haccF, haccG, ?_, hcharAll, ?_⟩
                · show [some st.gradYs.1, some st.gradYs.2] ++ sg2 = _
                  rw [hsg2]
                  simp
                · exact fun role l hl k hk => scatter_readback_main hB hL role l hl k hk
  · cases hok

set_option maxHeartbeats 4000000 in
/-- C1 witness: a concrete 2-layer block with one `f`-side and one `g`-side
input, four properly named variables (one per layer and role); the gradient
function succeeds and returns `2 + 1 + 1 = 4` input-gradients and `4`
variable-gradients. -/
theorem revblock_grad_count_order_witness :
    ∃ r, customGradFn
        ⟨2, [linF 100, linF 101], [linF 200, linF 201], [.leaf 20], [.leaf 21]⟩
        [.leaf 0, .leaf 1, .leaf 20, .leaf 21]
        [⟨"rb/revlayer_0/f/w:0", .leaf 100⟩, ⟨"rb/revlayer_0/g/w:0", .leaf 200⟩,
         ⟨"rb/revlayer_1/f/w:0", .leaf 101⟩, ⟨"rb/revlayer_1/g/w:0", .leaf 201⟩]
        (.leaf 10, .leaf 11) (.leaf 12, .leaf 13) = .ok r ∧
      r.gradInputs.length = 4 ∧ r.gradVars.length = 4 := by
  obtain ⟨r, hr⟩ := exceptIsOk_exists (e :=
    customGradFn
      ⟨2, [linF 100, linF 101], [linF 200, linF 201], [.leaf 20], [.leaf 21]⟩
      [.leaf 0, .leaf 1, .leaf 20, .leaf 21]
      [⟨"rb/revlayer_0/f/w:0", .leaf 100⟩, ⟨"rb/revlayer_0/g/w:0", .leaf 200⟩,
       ⟨"rb/revlayer_1/f/w:0", .leaf 101⟩, ⟨"rb/revlayer_1/g/w:0", .leaf 201⟩]
      (.leaf 10, .leaf 11) (.leaf 12, .leaf 13)) (by decide)
  obtain ⟨hlen1, hlen2, _, _⟩ := revblock_grad_count_order _ _ _ _ _ r hr
  exact ⟨r, hr, by simpa using hlen1, by simpa using hlen2⟩

end Tefla
